import Mathlib

/-!
A shallow embedding of the rotation engine in
`src/scripts/python/automation/rotate_logs.py` (class `LogRotator`).

Scope and conventions:

* The model covers the per-file pipeline `_process_log_file` (lines
  120-161): the trigger check `_should_rotate`, the generation shift
  `_shift_rotations`, the copy-and-truncate step, the compression pass
  `_compress_rotated_logs` and the retention sweep
  `_cleanup_old_rotations`, together with the `stats` dictionary.  The
  engine loop (`rotate_logs` / `_process_log_group`) applies this
  pipeline sequentially to each discovered file.
* A directory is modelled as the list of entries whose names match the
  glob `<base>.*` used by `_cleanup_old_rotations`, plus the base file
  itself; no other file in the directory is ever read or written by the
  pipeline.  File names are structured: `FName.base` is the base log
  file, `FName.gen n g` is `<base>.<n>` (for `g = false`) or
  `<base>.<n>.gz` (for `g = true`), and `FName.weird s` is any other
  name of the shape `<base>.<s>` (for example `app.log.old`).
* Modification times are integers in seconds; `datetime.now()` is
  `Env.now`; one day is 86400 seconds, so the sweep's
  `cutoff_date = datetime.now() - timedelta(days=max_age_days)` is
  `Env.now - maxAgeDays * 86400`.
* The byte transformation performed by `gzip` is abstracted by the
  function `Env.gzipBytes`: the script never inspects the compressed
  bytes, only their length (for the `bytes_freed` statistic).
* `shutil.copy2` preserves content and mtime, `open(p, 'w')` truncates
  in place and stamps the current time, and `Path.rename` overwrites an
  existing target (POSIX semantics), all mirrored below.
* I/O failures are modelled exactly where a claim examines them:
  compressing generation `i` may fail (`Env.cfail i`), either before the
  output file is created (`failNoCreate`, e.g. a permission error on
  open) or after `gzip.open` created it but before the copy or the
  subsequent stat/unlink completed (`failMid w`, leaving a file holding
  the bytes `w`, which the `except` clause of the script never removes).
  Failures of `shutil.copy2`, of the truncation, of `Path.rename` and of
  `Path.unlink` in the sweep are not modelled (those operations are
  assumed to succeed).
* `min_size_mb` is modelled as an integer number of megabytes; the
  script's comparison `size / (1024*1024) < min_size_mb` on floats is
  the exact integer comparison `size < min_size_mb * 1048576` for
  integral thresholds (up to float rounding, which no claim exercises).
* The compression pass additionally returns the list of primitive
  filesystem events it performs (`Ev`), in program order, so that the
  ordering guarantee "the compressed file is fully written before the
  original is unlinked" is statable.
-/

namespace RotateLogs

/-- Content (as a byte list) and modification time of one file. -/
structure FileData where
  content : List Nat
  mtime : Int
  deriving DecidableEq, Repr

/-- Names of the files the pipeline can touch, relative to one base log
file: the base itself, a numbered generation `<base>.<n>[.gz]`, or any
other name `<base>.<s>` matched by the sweep's glob `<base>.*`. -/
inductive FName where
  | base
  | gen (n : Nat) (isGz : Bool)
  | weird (s : String)
  deriving DecidableEq, Repr

/-- One directory entry: a name and the file's data. -/
structure Entry where
  name : FName
  data : FileData
  deriving DecidableEq, Repr

/-- A directory: the finite list of files visible to the pipeline. -/
abbrev Dir := List Entry

/-- Look a name up in the directory (first match). -/
def lookupF : Dir → FName → Option FileData
  | [], _ => none
  | e :: es, n => if e.name = n then some e.data else lookupF es n

/-- Remove every entry with the given name (`Path.unlink`). -/
def eraseF : Dir → FName → Dir
  | [], _ => []
  | e :: es, n => if e.name = n then eraseF es n else e :: eraseF es n

/-- Create or overwrite the file at the given name. -/
def setF (d : Dir) (n : FName) (v : FileData) : Dir :=
  ⟨n, v⟩ :: eraseF d n

/-- Rename `old` to `new`, overwriting `new` if present (`Path.rename`);
a no-op if `old` does not exist (the script only renames after an
existence check). -/
def renameF (d : Dir) (old new : FName) : Dir :=
  match lookupF d old with
  | none => d
  | some v => setF (eraseF d old) new v

/-- The `self.stats` dictionary of `LogRotator`. -/
structure Stats where
  rotated : Nat
  compressed : Nat
  deleted : Nat
  errors : Nat
  bytesFreed : Int
  deriving DecidableEq, Repr

/-- All-zero statistics, as set up in `LogRotator.__init__`. -/
def Stats.init : Stats := ⟨0, 0, 0, 0, 0⟩

/-- Directory plus accumulated statistics: the state threaded through
the pipeline. -/
structure St where
  dir : Dir
  stats : Stats
  deriving DecidableEq, Repr

/-- The per-group policy handed to `_process_log_file` (the
`max_age_days`, `max_rotations`, `compress`, `min_size_mb` values read
in `_process_log_group`). -/
structure Config where
  maxAgeDays : Nat
  maxRotations : Nat
  compress : Bool
  minSizeMB : Nat
  deriving DecidableEq, Repr

/-- Outcome of attempting to compress generation `i`: success; a failure
before the output file is created; or a failure after `gzip.open`
created the output, leaving it holding the bytes `w`. -/
inductive CompressOutcome where
  | ok
  | failNoCreate
  | failMid (w : List Nat)
  deriving DecidableEq, Repr

/-- External environment of one run: the current time, the abstract
gzip byte transformation, and the compression failure oracle, plus the
base file's real name (needed to mirror the sweep's regex, which parses
the full file name). -/
structure Env where
  now : Int
  gzipBytes : List Nat → List Nat
  cfail : Nat → CompressOutcome
  baseName : String

/-- Primitive filesystem events of the compression pass, in program
order: writing the compressed artifact for generation `n` (`complete`
records whether it was fully written) and unlinking the uncompressed
original. -/
inductive Ev where
  | writeGz (n : Nat) (complete : Bool)
  | unlinkPlain (n : Nat)
  deriving DecidableEq, Repr

/-- `_should_rotate` (lines 163-178): rotate only if the base file
exists and, when `min_size_mb > 0`, its size is at least the
threshold. -/
def shouldRotate (cfg : Config) (d : Dir) : Bool :=
  match lookupF d .base with
  | none => false
  | some fd =>
      if 0 < cfg.minSizeMB then
        decide (cfg.minSizeMB * 1048576 ≤ fd.content.length)
      else true

/-- One iteration of the `_shift_rotations` loop (lines 183-206), for
index `i`: prefer the compressed artifact, else the plain one; rename it
from `i` to `i + 1`; mutate only when not in dry-run mode. -/
def shiftOne (dry : Bool) (i : Nat) (d : Dir) : Dir :=
  if (lookupF d (.gen i true)).isSome then
    if dry then d else renameF d (.gen i true) (.gen (i + 1) true)
  else if (lookupF d (.gen i false)).isSome then
    if dry then d else renameF d (.gen i false) (.gen (i + 1) false)
  else d

/-- The `_shift_rotations` loop `for i in range(max_rotations - 1, 0, -1)`:
`shiftAux dry b` performs the iterations `i = b, b - 1, ..., 1`. -/
def shiftAux (dry : Bool) : Nat → Dir → Dir
  | 0, d => d
  | b + 1, d => shiftAux dry b (shiftOne dry (b + 1) d)

/-- `_shift_rotations` (lines 180-206). -/
def shiftRotations (dry : Bool) (maxRotations : Nat) (d : Dir) : Dir :=
  shiftAux dry (maxRotations - 1) d

/-- The copy-and-truncate step of `_process_log_file` (lines 139-154):
`shutil.copy2(log_file, f"{log_file}.1")` (preserving content and
mtime), then truncation of the base file via `open(log_file, 'w')`
(empty content, current mtime); `stats['rotated'] += 1` in both modes.
The copy and the truncation are assumed to succeed (their error path is
not modelled). -/
def rotateCurrent (dry : Bool) (now : Int) (st : St) : St :=
  if dry then
    { st with stats := { st.stats with rotated := st.stats.rotated + 1 } }
  else
    match lookupF st.dir .base with
    | none => st
    | some fd =>
        { dir := setF (setF st.dir (.gen 1 false) fd) .base { content := [], mtime := now },
          stats := { st.stats with rotated := st.stats.rotated + 1 } }

/-- One iteration of the `_compress_rotated_logs` loop (lines 210-244),
for generation `i`: eligible when `<base>.<i>` exists and
`<base>.<i>.gz` does not.  On success the compressed artifact is fully
written, the signed size difference is added to `bytes_freed`, and only
then is the original unlinked.  On failure the error counter is
incremented and the original is left in place; a mid-write failure
leaves the (possibly incomplete) output file behind.  Dry-run only
counts. -/
def compressOne (dry : Bool) (env : Env) (i : Nat) (st : St) : St × List Ev :=
  match lookupF st.dir (.gen i false), lookupF st.dir (.gen i true) with
  | some fd, none =>
      if dry then
        ({ st with stats := { st.stats with compressed := st.stats.compressed + 1 } }, [])
      else
        match env.cfail i with
        | .ok =>
            let gzFd : FileData := { content := env.gzipBytes fd.content, mtime := env.now }
            let saved : Int := (fd.content.length : Int) - (gzFd.content.length : Int)
            ({ dir := eraseF (setF st.dir (.gen i true) gzFd) (.gen i false),
               stats := { st.stats with
                 compressed := st.stats.compressed + 1,
                 bytesFreed := st.stats.bytesFreed + saved } },
             [Ev.writeGz i true, Ev.unlinkPlain i])
        | .failNoCreate =>
            ({ st with stats := { st.stats with errors := st.stats.errors + 1 } }, [])
        | .failMid w =>
            ({ dir := setF st.dir (.gen i true) { content := w, mtime := env.now },
               stats := { st.stats with errors := st.stats.errors + 1 } },
             [Ev.writeGz i false])
  | _, _ => (st, [])

/-- The `_compress_rotated_logs` loop `for i in range(1, max_rotations + 1)`:
`compressFrom dry env i fuel` performs the iterations
`i, i + 1, ..., i + fuel - 1`, concatenating the event lists. -/
def compressFrom (dry : Bool) (env : Env) : Nat → Nat → St → St × List Ev
  | _, 0, st => (st, [])
  | i, fuel + 1, st =>
      let r1 := compressOne dry env i st
      let r2 := compressFrom dry env (i + 1) fuel r1.1
      (r2.1, r1.2 ++ r2.2)

/-- `_compress_rotated_logs` (lines 208-244). -/
def compressRotatedLogs (dry : Bool) (env : Env) (maxRotations : Nat) (st : St) : St × List Ev :=
  compressFrom dry env 1 maxRotations st

/-- Helper for `splitDots`: accumulates the current component (in
reverse). -/
def splitDotsAux : List Char → List Char → List (List Char)
  | [], acc => [acc.reverse]
  | c :: cs, acc =>
      if c = '.' then acc.reverse :: splitDotsAux cs [] else splitDotsAux cs (c :: acc)

/-- Split a character list on `'.'`, exactly as `full.splitOn "."` does
for the single-character separator (e.g. `a.b` gives `[a, b]`, a
trailing dot yields a final empty component). -/
def splitDots (cs : List Char) : List (List Char) :=
  splitDotsAux cs []

/-- Nonempty string of decimal digits (the `\d+` of the sweep's
regex). -/
def isDigitStr (s : List Char) : Bool :=
  !s.isEmpty && s.all (·.isDigit)

/-- Value of a decimal digit string, as Python's `int` computes it. -/
def digitsToNat (s : List Char) : Nat :=
  s.foldl (fun a c => a * 10 + (c.toNat - 48)) 0

/-- The sweep's generation-number extraction
`re.search(r'\.(\d+)(\.gz)?$', name)` (lines 272-277), on a full file
name: the name matches exactly when its last dot-component is a digit
string (the required `\.` being the dot that ends the previous
component), or its last component is `gz` and the one before it is a
digit string preceded by a further dot. -/
def parseName (full : String) : Option Nat :=
  match (splitDots full.data).reverse with
  | [] => none
  | [_] => none
  | last :: prev :: rest =>
      if isDigitStr last then some (digitsToNat last)
      else if last = ['g', 'z'] then
        match rest with
        | [] => none
        | _ :: _ => if isDigitStr prev then some (digitsToNat prev) else none
      else none

/-- Generation number of a directory entry, as the sweep's regex
extracts it from the entry's real name.  For `FName.gen n g` the real
name is `<base>.<n>` or `<base>.<n>.gz`, whose last components are the
decimal digits of `n` (optionally followed by `gz`), so the regex
recovers exactly `n`. -/
def genNumOf (baseName : String) : FName → Option Nat
  | .base => none
  | .gen n _ => some n
  | .weird s => parseName (baseName ++ "." ++ s)

/-- The sweep's `too_old` test (lines 268-269): mtime strictly older
than `now - max_age_days` days. -/
def tooOldB (env : Env) (cfg : Config) (fd : FileData) : Bool :=
  fd.mtime < env.now - (cfg.maxAgeDays : Int) * 86400

/-- The sweep's `too_many` test (lines 272-277): the extracted
generation number strictly exceeds `max_rotations`; `False` when the
name has no generation suffix. -/
def tooManyB (env : Env) (cfg : Config) (n : FName) : Bool :=
  match genNumOf env.baseName n with
  | some m => decide (cfg.maxRotations < m)
  | none => false

/-- Deletion condition of the sweep (line 279): `too_old or too_many`. -/
def cleanupEntryCond (env : Env) (cfg : Config) (e : Entry) : Bool :=
  tooOldB env cfg e.data || tooManyB env cfg e.name

/-- The `_cleanup_old_rotations` loop (lines 262-295) over the glob
matches of `<base>.*`: the base file itself is skipped; every other
entry is deleted exactly when `too_old or too_many` holds, adding its
size to `bytes_freed`; in dry-run mode only the `deleted` counter is
incremented and nothing is removed.  (The script iterates in mtime
order; each entry's decision and both statistics are independent of the
other entries, so the iteration order is immaterial and the directory
order is used.) -/
def cleanupAux (dry : Bool) (env : Env) (cfg : Config) : Dir → Stats → St
  | [], s => { dir := [], stats := s }
  | e :: es, s =>
      if e.name = .base then
        let r := cleanupAux dry env cfg es s
        { r with dir := e :: r.dir }
      else if cleanupEntryCond env cfg e then
        if dry then
          let r := cleanupAux dry env cfg es { s with deleted := s.deleted + 1 }
          { r with dir := e :: r.dir }
        else
          cleanupAux dry env cfg es
            { s with deleted := s.deleted + 1,
                     bytesFreed := s.bytesFreed + (e.data.content.length : Int) }
      else
        let r := cleanupAux dry env cfg es s
        { r with dir := e :: r.dir }

/-- `_cleanup_old_rotations` (lines 246-295). -/
def cleanupOldRotations (dry : Bool) (env : Env) (cfg : Config) (st : St) : St :=
  cleanupAux dry env cfg st.dir st.stats

/-- `_process_log_file` (lines 120-161): trigger check, generation
shift, copy-and-truncate, compression pass (when enabled), retention
sweep. -/
def processLogFile (dry : Bool) (env : Env) (cfg : Config) (st : St) : St :=
  if shouldRotate cfg st.dir then
    let st1 : St := { dir := shiftRotations dry cfg.maxRotations st.dir, stats := st.stats }
    let st2 := rotateCurrent dry env.now st1
    let st3 := if cfg.compress then (compressRotatedLogs dry env cfg.maxRotations st2).1 else st2
    cleanupOldRotations dry env cfg st3
  else st

/-- Generation `n` is referenced by some artifact (plain or compressed). -/
def hasGenB (d : Dir) (n : Nat) : Bool :=
  (lookupF d (.gen n false)).isSome || (lookupF d (.gen n true)).isSome

/-- Eligibility test of the compression loop for generation `i`:
`rotated_file.exists() and not compressed_file.exists()`. -/
def eligibleB (d : Dir) (i : Nat) : Bool :=
  (lookupF d (.gen i false)).isSome && (lookupF d (.gen i true)).isNone

/-- The failure oracle predicts a failure for generation `i`. -/
def failsB (env : Env) (i : Nat) : Bool :=
  match env.cfail i with
  | .ok => false
  | _ => true

/-- Number of iterations among `i, ..., i + fuel - 1` that are eligible
(relative to the fixed directory `d`) and fail. -/
def failCount (d : Dir) (env : Env) : Nat → Nat → Nat
  | _, 0 => 0
  | i, fuel + 1 =>
      (if eligibleB d i && failsB env i then 1 else 0) + failCount d env (i + 1) fuel

/-- Well-formed directory: no two entries share a name (true of any real
directory listing). -/
def wfDirB : Dir → Bool
  | [] => true
  | e :: es => es.all (fun e2 => !decide (e2.name = e.name)) && wfDirB es

/-- A trace is unlink-safe when every unlink of an uncompressed
generation is preceded by the complete write of its compressed
artifact. -/
def safeTrace (tr : List Ev) : Prop :=
  ∀ i l1 l2, tr = l1 ++ Ev.unlinkPlain i :: l2 → Ev.writeGz i true ∈ l1

/-! Basic lemmas about the directory primitives. -/

theorem lookupF_eraseF_self (d : Dir) (n : FName) : lookupF (eraseF d n) n = none := by
  induction d with
  | nil => rfl
  | cons e es ih =>
      by_cases h : e.name = n
      · simpa [eraseF, h] using ih
      · simp [eraseF, lookupF, h, ih]

theorem lookupF_eraseF_ne {m n : FName} (d : Dir) (h : m ≠ n) :
    lookupF (eraseF d n) m = lookupF d m := by
  induction d with
  | nil => rfl
  | cons e es ih =>
      by_cases he : e.name = n
      · simp [eraseF, lookupF, he, Ne.symm h, ih]
      · by_cases hm : e.name = m
        · simp [eraseF, lookupF, he, hm, h]
        · simp [eraseF, lookupF, he, hm, ih]

theorem lookupF_setF_self (d : Dir) (n : FName) (v : FileData) :
    lookupF (setF d n v) n = some v := by
  simp [setF, lookupF]

theorem lookupF_setF_ne {m n : FName} (d : Dir) (v : FileData) (h : m ≠ n) :
    lookupF (setF d n v) m = lookupF d m := by
  have hn : n ≠ m := fun hh => h hh.symm
  simp [setF, lookupF, hn, lookupF_eraseF_ne d h]

theorem lookupF_renameF_old {old new : FName} (d : Dir) (h : old ≠ new) :
    lookupF (renameF d old new) old = none := by
  unfold renameF
  cases hc : lookupF d old with
  | none => simp [hc]
  | some v => simp [lookupF_setF_ne _ _ h, lookupF_eraseF_self]

theorem lookupF_renameF_new {old new : FName} (d : Dir) {v : FileData}
    (h : lookupF d old = some v) : lookupF (renameF d old new) new = some v := by
  unfold renameF
  simp [h, lookupF_setF_self]

theorem lookupF_renameF_other {m old new : FName} (d : Dir) (h1 : m ≠ old) (h2 : m ≠ new) :
    lookupF (renameF d old new) m = lookupF d m := by
  unfold renameF
  cases hc : lookupF d old with
  | none => rfl
  | some v => rw [lookupF_setF_ne _ _ h2, lookupF_eraseF_ne _ h1]

theorem mem_eraseF {e : Entry} {d : Dir} {n : FName} (h : e ∈ eraseF d n) : e ∈ d := by
  induction d with
  | nil => simp [eraseF] at h
  | cons e2 es ih =>
      by_cases he : e2.name = n
      · simp only [eraseF, if_pos he] at h
        exact List.mem_cons_of_mem _ (ih h)
      · simp only [eraseF, if_neg he, List.mem_cons] at h
        rcases h with h | h
        · exact h ▸ List.mem_cons_self _ _
        · exact List.mem_cons_of_mem _ (ih h)

theorem name_mem_eraseF {e : Entry} {d : Dir} {n : FName} (h : e ∈ eraseF d n) :
    e.name ≠ n := by
  induction d with
  | nil => simp [eraseF] at h
  | cons e2 es ih =>
      by_cases he : e2.name = n
      · simp only [eraseF, if_pos he] at h
        exact ih h
      · simp only [eraseF, if_neg he, List.mem_cons] at h
        rcases h with h | h
        · exact h ▸ he
        · exact ih h

theorem wf_eraseF {d : Dir} (n : FName) (h : wfDirB d = true) :
    wfDirB (eraseF d n) = true := by
  induction d with
  | nil => simpa [eraseF] using h
  | cons e es ih =>
      simp only [wfDirB, Bool.and_eq_true, List.all_eq_true] at h
      by_cases he : e.name = n
      · simp only [eraseF, if_pos he]
        exact ih h.2
      · simp only [eraseF, if_neg he, wfDirB, Bool.and_eq_true, List.all_eq_true]
        refine ⟨fun e2 h2 => h.1 e2 (mem_eraseF h2), ih h.2⟩

theorem wf_setF {d : Dir} (n : FName) (v : FileData) (h : wfDirB d = true) :
    wfDirB (setF d n v) = true := by
  simp only [setF, wfDirB, Bool.and_eq_true, List.all_eq_true]
  refine ⟨fun e2 h2 => ?_, wf_eraseF n h⟩
  simpa using name_mem_eraseF h2

theorem wf_renameF {d : Dir} (old new : FName) (h : wfDirB d = true) :
    wfDirB (renameF d old new) = true := by
  unfold renameF
  cases lookupF d old with
  | none => exact h
  | some v => exact wf_setF _ _ (wf_eraseF _ h)

/-! Lemmas about the generation shift. -/

theorem shiftOne_dry (i : Nat) (d : Dir) : shiftOne true i d = d := by
  unfold shiftOne
  split <;> simp

theorem shiftAux_dry (b : Nat) (d : Dir) : shiftAux true b d = d := by
  induction b generalizing d with
  | zero => rfl
  | succ b ih => simp [shiftAux, shiftOne_dry, ih]

theorem wf_shiftOne (dry : Bool) (i : Nat) {d : Dir} (h : wfDirB d = true) :
    wfDirB (shiftOne dry i d) = true := by
  unfold shiftOne
  split
  · split
    · exact h
    · exact wf_renameF _ _ h
  · split
    · split
      · exact h
      · exact wf_renameF _ _ h
    · exact h

theorem wf_shiftAux (dry : Bool) (b : Nat) {d : Dir} (h : wfDirB d = true) :
    wfDirB (shiftAux dry b d) = true := by
  induction b generalizing d with
  | zero => exact h
  | succ b ih => exact ih (wf_shiftOne dry (b + 1) h)

theorem lookupF_shiftOne_frame {m : FName} (dry : Bool) (i : Nat) (d : Dir)
    (h1 : ∀ g, m ≠ FName.gen i g) (h2 : ∀ g, m ≠ FName.gen (i + 1) g) :
    lookupF (shiftOne dry i d) m = lookupF d m := by
  unfold shiftOne
  split
  · split
    · rfl
    · exact lookupF_renameF_other d (h1 true) (h2 true)
  · split
    · split
      · rfl
      · exact lookupF_renameF_other d (h1 false) (h2 false)
    · rfl

theorem lookupF_shiftAux_frame {m : FName} (dry : Bool) (b : Nat) (d : Dir)
    (h : ∀ j g, 1 ≤ j → j ≤ b + 1 → m ≠ FName.gen j g) :
    lookupF (shiftAux dry b d) m = lookupF d m := by
  induction b generalizing d with
  | zero => rfl
  | succ b ih =>
      rw [shiftAux, ih _ (fun j g hj1 hj2 => h j g hj1 (by omega)),
        lookupF_shiftOne_frame dry (b + 1) d (fun g => h (b + 1) g (by omega) (by omega))
          (fun g => h (b + 2) g (by omega) (by omega))]

theorem lookupF_shiftAux_base (dry : Bool) (b : Nat) (d : Dir) :
    lookupF (shiftAux dry b d) .base = lookupF d .base :=
  lookupF_shiftAux_frame dry b d (by intro j g _ _ h; cases h)

theorem lookupF_shiftAux_weird (dry : Bool) (b : Nat) (d : Dir) (s : String) :
    lookupF (shiftAux dry b d) (.weird s) = lookupF d (.weird s) :=
  lookupF_shiftAux_frame dry b d (by intro j g _ _ h; cases h)

theorem lookupF_shiftAux_gen0 (dry : Bool) (b : Nat) (d : Dir) (g : Bool) :
    lookupF (shiftAux dry b d) (.gen 0 g) = lookupF d (.gen 0 g) :=
  lookupF_shiftAux_frame dry b d
    (by intro j g' hj _ h; rw [FName.gen.injEq] at h; omega)

/-- Effect of one real shift iteration at index `i`, on a state where at
most one artifact occupies slot `i` and slot `i + 1` is empty: slot `i`
is vacated, its artifact moves (form-preserving) to slot `i + 1`, and
every other slot is untouched. -/
theorem shiftOne_step (i : Nat) (d : Dir)
    (hone : lookupF d (.gen i false) = none ∨ lookupF d (.gen i true) = none)
    (htop : ∀ g, lookupF d (.gen (i + 1) g) = none) :
    (∀ g, lookupF (shiftOne false i d) (.gen i g) = none) ∧
    (∀ g, lookupF (shiftOne false i d) (.gen (i + 1) g) = lookupF d (.gen i g)) ∧
    (∀ j g, j ≠ i → j ≠ i + 1 → lookupF (shiftOne false i d) (.gen j g) = lookupF d (.gen j g)) := by
  have hne : ∀ g : Bool, (FName.gen i g : FName) ≠ .gen (i + 1) g := by
    intro g h
    rw [FName.gen.injEq] at h
    omega
  have hneF : (FName.gen i false : FName) ≠ .gen i true := by
    intro h
    rw [FName.gen.injEq] at h
    simp at h
  unfold shiftOne
  by_cases hgz : (lookupF d (.gen i true)).isSome
  · have hpl : lookupF d (.gen i false) = none := by
      rcases hone with h | h
      · exact h
      · rw [h] at hgz
        simp at hgz
    obtain ⟨v, hv⟩ := Option.isSome_iff_exists.mp hgz
    rw [if_pos hgz, if_neg (by simp)]
    refine ⟨?_, ?_, ?_⟩
    · intro g
      cases g
      · rw [lookupF_renameF_other d hneF (by intro h; rw [FName.gen.injEq] at h; omega)]
        exact hpl
      · exact lookupF_renameF_old d (hne true)
    · intro g
      cases g
      · rw [lookupF_renameF_other d (by intro h; rw [FName.gen.injEq] at h; omega)
          (by intro h; rw [FName.gen.injEq] at h; simp at h)]
        rw [htop false, hpl]
      · rw [hv]
        exact lookupF_renameF_new d hv
    · intro j g hj1 hj2
      exact lookupF_renameF_other d
        (by intro h; rw [FName.gen.injEq] at h; exact hj1 h.1)
        (by intro h; rw [FName.gen.injEq] at h; exact hj2 h.1)
  · rw [if_neg hgz]
    have hgze : lookupF d (.gen i true) = none := by
      cases hh : lookupF d (.gen i true)
      · rfl
      · rw [hh] at hgz
        simp at hgz
    by_cases hpl : (lookupF d (.gen i false)).isSome
    · obtain ⟨v, hv⟩ := Option.isSome_iff_exists.mp hpl
      rw [if_pos hpl, if_neg (by simp)]
      refine ⟨?_, ?_, ?_⟩
      · intro g
        cases g
        · exact lookupF_renameF_old d (hne false)
        · rw [lookupF_renameF_other d (Ne.symm hneF)
            (by intro h; rw [FName.gen.injEq] at h; omega)]
          exact hgze
      · intro g
        cases g
        · rw [hv]
          exact lookupF_renameF_new d hv
        · rw [lookupF_renameF_other d (by intro h; rw [FName.gen.injEq] at h; omega)
            (by intro h; rw [FName.gen.injEq] at h; simp at h)]
          rw [htop true, hgze]
      · intro j g hj1 hj2
        exact lookupF_renameF_other d
          (by intro h; rw [FName.gen.injEq] at h; exact hj1 h.1)
          (by intro h; rw [FName.gen.injEq] at h; exact hj2 h.1)
    · rw [if_neg hpl]
      have hple : lookupF d (.gen i false) = none := by
        cases hh : lookupF d (.gen i false)
        · rfl
        · rw [hh] at hpl
          simp at hpl
      refine ⟨?_, ?_, ?_⟩
      · intro g
        cases g
        · exact hple
        · exact hgze
      · intro g
        rw [htop g]
        cases g
        · exact hple.symm
        · exact hgze.symm
      · intro j g _ _
        rfl

/-- Full characterization of the real shift loop `shiftAux false b`
(iterations `b, ..., 1`) on a state where each slot `1..b+1` holds at
most one artifact and slot `b+1` is empty: slot 1 ends empty, slots
`2..b+1` receive the artifact of their predecessor (form preserved), and
all higher slots are untouched. -/
theorem shiftAux_spec (b : Nat) (d : Dir)
    (hone : ∀ j, j ≤ b + 1 →
      lookupF d (.gen j false) = none ∨ lookupF d (.gen j true) = none)
    (htop : ∀ g, lookupF d (.gen (b + 1) g) = none) :
    (∀ g, lookupF (shiftAux false b d) (.gen 1 g) = none) ∧
    (∀ j g, 2 ≤ j → j ≤ b + 1 →
      lookupF (shiftAux false b d) (.gen j g) = lookupF d (.gen (j - 1) g)) ∧
    (∀ j g, b + 1 < j →
      lookupF (shiftAux false b d) (.gen j g) = lookupF d (.gen j g)) := by
  induction b generalizing d with
  | zero =>
      refine ⟨fun g => htop g, ?_, ?_⟩
      · intro j g h2 h1
        omega
      · intro j g _
        rfl
  | succ b ih =>
      have hstep := shiftOne_step (b + 1) d (hone (b + 1) (by omega)) htop
      set d' := shiftOne false (b + 1) d with hd'
      have hone' : ∀ j, j ≤ b + 1 →
          lookupF d' (.gen j false) = none ∨ lookupF d' (.gen j true) = none := by
        intro j hj
        by_cases hjb : j = b + 1
        · left
          rw [hjb]
          exact hstep.1 false
        · rw [hstep.2.2 j false hjb (by omega), hstep.2.2 j true hjb (by omega)]
          exact hone j (by omega)
      have htop' : ∀ g, lookupF d' (.gen (b + 1) g) = none := hstep.1
      have ihs := ih d' hone' htop'
      refine ⟨ihs.1, ?_, ?_⟩
      · intro j g h2 hj
        by_cases hjb : j = b + 2
        · rw [hjb]
          have := ihs.2.2 (b + 2) g (by omega)
          rw [shiftAux, ← hd', this]
          have := hstep.2.1 g
          simpa using this
        · rw [shiftAux, ← hd', ihs.2.1 j g h2 (by omega),
            hstep.2.2 (j - 1) g (by omega) (by omega)]
      · intro j g hj
        rw [shiftAux, ← hd', ihs.2.2 j g (by omega),
          hstep.2.2 j g (by omega) (by omega)]

/-! Lemmas about the compression pass. -/

theorem compressOne_dry_dir (env : Env) (i : Nat) (st : St) :
    ((compressOne true env i st).1).dir = st.dir := by
  unfold compressOne
  split
  · simp
  · rfl

theorem compressFrom_dry_dir (env : Env) (i fuel : Nat) (st : St) :
    ((compressFrom true env i fuel st).1).dir = st.dir := by
  induction fuel generalizing i st with
  | zero => rfl
  | succ fuel ih => rw [compressFrom, ih, compressOne_dry_dir]

theorem compressOne_frame {m : FName} (dry : Bool) (env : Env) (i : Nat) (st : St)
    (h : ∀ g, m ≠ FName.gen i g) :
    lookupF ((compressOne dry env i st).1).dir m = lookupF st.dir m := by
  rcases hpl : lookupF st.dir (.gen i false) with _ | fd <;>
    rcases hgz : lookupF st.dir (.gen i true) with _ | gd <;>
      simp only [compressOne, hpl, hgz]
  cases dry
  · simp only [Bool.false_eq_true, if_false]
    cases env.cfail i
    · simp only
      rw [lookupF_eraseF_ne _ (h false), lookupF_setF_ne _ _ (h true)]
    · rfl
    · simp only
      rw [lookupF_setF_ne _ _ (h true)]
  · simp

theorem compressFrom_frame {m : FName} (dry : Bool) (env : Env) (i fuel : Nat) (st : St)
    (h : ∀ j g, i ≤ j → j < i + fuel → m ≠ FName.gen j g) :
    lookupF ((compressFrom dry env i fuel st).1).dir m = lookupF st.dir m := by
  induction fuel generalizing i st with
  | zero => rfl
  | succ fuel ih =>
      rw [compressFrom]
      rw [ih (i + 1) _ (fun j g hj1 hj2 => h j g (by omega) (by omega)),
        compressOne_frame dry env i st (fun g => h i g (by omega) (by omega))]

theorem compressOne_rotated (dry : Bool) (env : Env) (i : Nat) (st : St) :
    ((compressOne dry env i st).1).stats.rotated = st.stats.rotated := by
  unfold compressOne
  split
  · cases dry
    · simp only [Bool.false_eq_true, if_false]
      cases env.cfail i <;> rfl
    · simp
  · rfl

theorem compressOne_deleted (dry : Bool) (env : Env) (i : Nat) (st : St) :
    ((compressOne dry env i st).1).stats.deleted = st.stats.deleted := by
  unfold compressOne
  split
  · cases dry
    · simp only [Bool.false_eq_true, if_false]
      cases env.cfail i <;> rfl
    · simp
  · rfl

theorem compressFrom_rotated (dry : Bool) (env : Env) (i fuel : Nat) (st : St) :
    ((compressFrom dry env i fuel st).1).stats.rotated = st.stats.rotated := by
  induction fuel generalizing i st with
  | zero => rfl
  | succ fuel ih => rw [compressFrom, ih, compressOne_rotated]

theorem compressFrom_deleted (dry : Bool) (env : Env) (i fuel : Nat) (st : St) :
    ((compressFrom dry env i fuel st).1).stats.deleted = st.stats.deleted := by
  induction fuel generalizing i st with
  | zero => rfl
  | succ fuel ih => rw [compressFrom, ih, compressOne_deleted]

theorem compressOne_dry_errors (env : Env) (i : Nat) (st : St) :
    ((compressOne true env i st).1).stats.errors = st.stats.errors := by
  unfold compressOne
  split
  · simp
  · rfl

theorem compressFrom_dry_errors (env : Env) (i fuel : Nat) (st : St) :
    ((compressFrom true env i fuel st).1).stats.errors = st.stats.errors := by
  induction fuel generalizing i st with
  | zero => rfl
  | succ fuel ih => rw [compressFrom, ih, compressOne_dry_errors]

theorem compressOne_errors (env : Env) (i : Nat) (st : St) :
    ((compressOne false env i st).1).stats.errors
      = st.stats.errors + (if eligibleB st.dir i && failsB env i then 1 else 0) := by
  rcases hpl : lookupF st.dir (.gen i false) with _ | fd <;>
    rcases hgz : lookupF st.dir (.gen i true) with _ | gd <;>
      simp only [compressOne, eligibleB, failsB, hpl, hgz] <;>
        try simp
  cases hc : env.cfail i <;> simp

theorem compressOne_eligible_frame {j : Nat} (dry : Bool) (env : Env) (i : Nat) (st : St)
    (h : j ≠ i) :
    eligibleB ((compressOne dry env i st).1).dir j = eligibleB st.dir j := by
  unfold eligibleB
  rw [compressOne_frame dry env i st (by intro g hg; rw [FName.gen.injEq] at hg; exact h hg.1),
    compressOne_frame dry env i st (by intro g hg; rw [FName.gen.injEq] at hg; exact h hg.1)]

theorem failCount_congr {d1 d2 : Dir} (env : Env) (i fuel : Nat)
    (h : ∀ j, i ≤ j → j < i + fuel → eligibleB d1 j = eligibleB d2 j) :
    failCount d1 env i fuel = failCount d2 env i fuel := by
  induction fuel generalizing i with
  | zero => rfl
  | succ fuel ih =>
      rw [failCount, failCount, h i (by omega) (by omega),
        ih (i + 1) (fun j hj1 hj2 => h j (by omega) (by omega))]

theorem compressFrom_errors (env : Env) (i fuel : Nat) (st : St) :
    ((compressFrom false env i fuel st).1).stats.errors
      = st.stats.errors + failCount st.dir env i fuel := by
  induction fuel generalizing i st with
  | zero => rfl
  | succ fuel ih =>
      rw [compressFrom, failCount]
      rw [ih (i + 1) ((compressOne false env i st).1), compressOne_errors,
        failCount_congr env (i + 1) fuel
          (fun j hj1 hj2 => compressOne_eligible_frame false env i st (by omega))]
      omega

theorem failCount_pos {d : Dir} (env : Env) (i fuel j : Nat) (hj1 : i ≤ j)
    (hj2 : j < i + fuel) (he : eligibleB d j = true) (hf : failsB env j = true) :
    1 ≤ failCount d env i fuel := by
  induction fuel generalizing i with
  | zero => omega
  | succ fuel ih =>
      rw [failCount]
      by_cases hij : j = i
      · rw [← hij, he, hf]
        simp
      · have := ih (i + 1) (by omega) (by omega)
        omega

theorem failCount_zero {d : Dir} {env : Env} (i fuel : Nat)
    (h : ∀ j, env.cfail j = .ok) : failCount d env i fuel = 0 := by
  induction fuel generalizing i with
  | zero => rfl
  | succ fuel ih =>
      rw [failCount]
      have : failsB env i = false := by
        unfold failsB
        rw [h i]
      rw [this]
      simp [ih (i + 1)]

theorem compressOne_notEligible (dry : Bool) (env : Env) (i : Nat) (st : St)
    (h : eligibleB st.dir i = false) : compressOne dry env i st = (st, []) := by
  unfold eligibleB at h
  rcases hpl : lookupF st.dir (.gen i false) with _ | fd <;>
    rcases hgz : lookupF st.dir (.gen i true) with _ | gd <;>
      simp only [compressOne, hpl, hgz]
  rw [hpl, hgz] at h
  simp at h

theorem compressFrom_notEligible {j : Nat} (dry : Bool) (env : Env) (i fuel : Nat) (st : St)
    (h : eligibleB st.dir j = false) (g : Bool) :
    lookupF ((compressFrom dry env i fuel st).1).dir (.gen j g)
      = lookupF st.dir (.gen j g) := by
  induction fuel generalizing i st with
  | zero => rfl
  | succ fuel ih =>
      rw [compressFrom]
      by_cases hij : j = i
      · rw [← hij, compressOne_notEligible dry env j st (hij ▸ h)]
        exact compressFrom_frame dry env _ _ _
          (by intro j' g' hj1 hj2 hn; rw [FName.gen.injEq] at hn; omega)
      · have hfr : ∀ g' : Bool,
            lookupF ((compressOne dry env i st).1).dir (.gen j g')
              = lookupF st.dir (.gen j g') := by
          intro g'
          exact compressOne_frame dry env i st
            (by intro g'' hg; rw [FName.gen.injEq] at hg; exact hij hg.1)
        have h' : eligibleB ((compressOne dry env i st).1).dir j = false := by
          unfold eligibleB
          rw [hfr false, hfr true]
          exact h
        rw [ih (i + 1) _ h', hfr g]

theorem compressFrom_failsPlain {j : Nat} (env : Env) (i fuel : Nat) (st : St)
    (hf : failsB env j = true) :
    lookupF ((compressFrom false env i fuel st).1).dir (.gen j false)
      = lookupF st.dir (.gen j false) := by
  induction fuel generalizing i st with
  | zero => rfl
  | succ fuel ih =>
      rw [compressFrom]
      by_cases hij : j = i
      · subst hij
        have h1 : lookupF ((compressOne false env j st).1).dir (.gen j false)
            = lookupF st.dir (.gen j false) := by
          rcases hpl : lookupF st.dir (.gen j false) with _ | fd <;>
            rcases hgz : lookupF st.dir (.gen j true) with _ | gd <;>
              simp only [compressOne, hpl, hgz] <;> try rfl
          unfold failsB at hf
          rcases hc : env.cfail j with _ | _ | w
          · rw [hc] at hf
            simp at hf
          · simp only [hc, Bool.false_eq_true, if_false]
            exact hpl
          · simp only [hc, Bool.false_eq_true, if_false]
            rw [lookupF_setF_ne _ _ (by intro hg; rw [FName.gen.injEq] at hg; simp at hg)]
            exact hpl
        rw [compressFrom_frame false env _ _ _
          (by intro j' g' hj1 hj2 hn; rw [FName.gen.injEq] at hn; omega), h1]
      · have hfr : lookupF ((compressOne false env i st).1).dir (.gen j false)
            = lookupF st.dir (.gen j false) :=
          compressOne_frame false env i st
            (by intro g'' hg; rw [FName.gen.injEq] at hg; exact hij hg.1)
        rw [ih (i + 1) _, hfr]

theorem compressOne_eligible_ok {i : Nat} (env : Env) (st : St) {fd : FileData}
    (hok : env.cfail i = .ok)
    (hfd : lookupF st.dir (.gen i false) = some fd)
    (hgz : lookupF st.dir (.gen i true) = none) :
    lookupF ((compressOne false env i st).1).dir (.gen i false) = none ∧
    lookupF ((compressOne false env i st).1).dir (.gen i true)
      = some ⟨env.gzipBytes fd.content, env.now⟩ := by
  simp only [compressOne, hfd, hgz, hok, Bool.false_eq_true, if_false]
  constructor
  · exact lookupF_eraseF_self _ _
  · rw [lookupF_eraseF_ne _ (by intro hg; rw [FName.gen.injEq] at hg; simp at hg),
      lookupF_setF_self]

theorem compressFrom_eligible_ok {j : Nat} (env : Env) (i fuel : Nat) (st : St) {fd : FileData}
    (hj1 : i ≤ j) (hj2 : j < i + fuel) (hok : env.cfail j = .ok)
    (hfd : lookupF st.dir (.gen j false) = some fd)
    (hgz : lookupF st.dir (.gen j true) = none) :
    lookupF ((compressFrom false env i fuel st).1).dir (.gen j false) = none ∧
    lookupF ((compressFrom false env i fuel st).1).dir (.gen j true)
      = some ⟨env.gzipBytes fd.content, env.now⟩ := by
  induction fuel generalizing i st with
  | zero => omega
  | succ fuel ih =>
      rw [compressFrom]
      by_cases hij : j = i
      · subst hij
        have h1 := compressOne_eligible_ok env st hok hfd hgz
        have hfr : ∀ g : Bool,
            lookupF ((compressFrom false env (j + 1) fuel ((compressOne false env j st).1)).1).dir
              (.gen j g) = lookupF ((compressOne false env j st).1).dir (.gen j g) := by
          intro g
          exact compressFrom_frame false env _ _ _
            (by intro j' g' hj1' hj2' hn; rw [FName.gen.injEq] at hn; omega)
        rw [hfr false, hfr true]
        exact h1
      · have hfr : ∀ g : Bool,
            lookupF ((compressOne false env i st).1).dir (.gen j g)
              = lookupF st.dir (.gen j g) := by
          intro g
          exact compressOne_frame false env i st
            (by intro g'' hg; rw [FName.gen.injEq] at hg; exact hij hg.1)
        exact ih (i + 1) _ (by omega) (by omega) ((hfr false).trans hfd) ((hfr true).trans hgz)

theorem wf_compressOne (dry : Bool) (env : Env) (i : Nat) {st : St}
    (h : wfDirB st.dir = true) : wfDirB ((compressOne dry env i st).1).dir = true := by
  unfold compressOne
  split
  · cases dry
    · simp only [Bool.false_eq_true, if_false]
      cases env.cfail i
      · exact wf_eraseF _ (wf_setF _ _ h)
      · exact h
      · exact wf_setF _ _ h
    · simpa using h
  · exact h

theorem wf_compressFrom (dry : Bool) (env : Env) (i fuel : Nat) {st : St}
    (h : wfDirB st.dir = true) : wfDirB ((compressFrom dry env i fuel st).1).dir = true := by
  induction fuel generalizing i st with
  | zero => exact h
  | succ fuel ih => exact ih (i + 1) (wf_compressOne dry env i h)

/-! Trace lemmas for the compression pass. -/

theorem safeTrace_nil : safeTrace [] := by
  intro i l1 l2 h
  rcases l1 with _ | ⟨e, l1⟩ <;> simp at h

theorem safeTrace_append {t r : List Ev} (ht : safeTrace t) (hr : safeTrace r) :
    safeTrace (t ++ r) := by
  intro i l1 l2 h
  rcases List.append_eq_append_iff.mp h with ⟨a, ha1, ha2⟩ | ⟨c, hc1, hc2⟩
  · rw [ha1]
    exact List.mem_append_right t (hr i a l2 ha2)
  · rcases c with _ | ⟨e, c⟩
    · have : Ev.writeGz i true ∈ ([] : List Ev) := by
        refine hr i [] l2 ?_
        simpa using hc2.symm
      simp at this
    · rw [List.cons_append] at hc2
      injection hc2 with h1 h2
      subst h1
      exact ht i l1 c hc1


theorem compressOne_safe (dry : Bool) (env : Env) (i : Nat) (st : St) :
    safeTrace (compressOne dry env i st).2 := by
  have hsingle : ∀ b : Bool, safeTrace [Ev.writeGz i b] := by
    intro b j l1 l2 h
    rcases l1 with _ | ⟨e, l1⟩ <;> simp at h
  have hpair : safeTrace [Ev.writeGz i true, Ev.unlinkPlain i] := by
    intro j l1 l2 h
    rcases l1 with _ | ⟨e, l1⟩
    · simp at h
    · simp at h
      rcases h with ⟨he, hl⟩
      subst he
      rcases l1 with _ | ⟨e2, l1⟩
      · simp at hl
        obtain ⟨h1, h2⟩ := hl
        subst h1
        simp
      · simp at hl
  unfold compressOne
  split
  · cases dry
    · simp only [Bool.false_eq_true, if_false]
      cases env.cfail i
      · exact hpair
      · exact safeTrace_nil
      · exact hsingle false
    · simp only [if_pos rfl]
      exact safeTrace_nil
  · exact safeTrace_nil

theorem compressFrom_safe (dry : Bool) (env : Env) (i fuel : Nat) (st : St) :
    safeTrace (compressFrom dry env i fuel st).2 := by
  induction fuel generalizing i st with
  | zero => exact safeTrace_nil
  | succ fuel ih =>
      rw [compressFrom]
      exact safeTrace_append (compressOne_safe dry env i st) (ih (i + 1) _)

/-! Lemmas about the retention sweep. -/

theorem cleanupAux_dry_dir (env : Env) (cfg : Config) (d : Dir) (s : Stats) :
    (cleanupAux true env cfg d s).dir = d := by
  induction d generalizing s with
  | nil => rfl
  | cons e es ih =>
      unfold cleanupAux
      split
      · simp [ih]
      · split
        · simp [ih]
        · simp [ih]

theorem lookupF_eq_none {d : Dir} {n : FName} (h : ∀ e ∈ d, e.name ≠ n) :
    lookupF d n = none := by
  induction d with
  | nil => rfl
  | cons e es ih =>
      rw [lookupF, if_neg (h e (List.mem_cons_self e es))]
      exact ih (fun e2 h2 => h e2 (List.mem_cons_of_mem e h2))

theorem cleanupAux_lookup_none (dry : Bool) (env : Env) (cfg : Config) {d : Dir} (s : Stats)
    {n : FName} (h : lookupF d n = none) :
    lookupF (cleanupAux dry env cfg d s).dir n = none := by
  induction d generalizing s with
  | nil => rfl
  | cons e es ih =>
      rw [lookupF] at h
      split at h
      · simp at h
      · unfold cleanupAux
        split
        · simp only [lookupF]
          rw [if_neg (by assumption)]
          exact ih _ h
        · split
          · split
            · simp only [lookupF]
              rw [if_neg (by assumption)]
              exact ih _ h
            · exact ih _ h
          · simp only [lookupF]
            rw [if_neg (by assumption)]
            exact ih _ h

theorem cleanupAux_lookup_some (env : Env) (cfg : Config) {d : Dir} (s : Stats)
    {n : FName} {fd : FileData} (hwf : wfDirB d = true) (hn : n ≠ FName.base)
    (h : lookupF d n = some fd) :
    lookupF (cleanupAux false env cfg d s).dir n
      = if cleanupEntryCond env cfg ⟨n, fd⟩ then none else some fd := by
  induction d generalizing s with
  | nil => simp [lookupF] at h
  | cons e es ih =>
      simp only [wfDirB, Bool.and_eq_true, List.all_eq_true] at hwf
      rw [lookupF] at h
      by_cases he : e.name = n
      · rw [if_pos he] at h
        have hd : e.data = fd := by injection h
        have hfd : e = ⟨n, fd⟩ := by
          rcases e with ⟨en, ed⟩
          simp only [Entry.mk.injEq]
          exact ⟨he, hd⟩
        have hes : lookupF es n = none := by
          refine lookupF_eq_none (fun e2 h2 => ?_)
          have hne := hwf.1 e2 h2
          simp at hne
          rw [← he]
          exact hne
        unfold cleanupAux
        rw [if_neg (by rw [he]; exact hn)]
        by_cases hc : cleanupEntryCond env cfg e = true
        · rw [if_pos hc]
          rw [hfd] at hc
          rw [hc]
          simp only [if_pos rfl]
          exact cleanupAux_lookup_none false env cfg _ hes
        · rw [if_neg hc]
          have hcf : cleanupEntryCond env cfg ⟨n, fd⟩ = false := by
            rw [← hfd]
            simpa using hc
          rw [hcf]
          simp only [Bool.false_eq_true, if_false, lookupF]
          rw [if_pos he, hfd]
      · rw [if_neg he] at h
        unfold cleanupAux
        split
        · simp only [lookupF]
          rw [if_neg he]
          exact ih _ hwf.2 h
        · split
          · split
            · simp only [lookupF]
              rw [if_neg he]
              exact ih _ hwf.2 h
            · exact ih _ hwf.2 h
          · simp only [lookupF]
            rw [if_neg he]
            exact ih _ hwf.2 h

theorem cleanupAux_mem {env : Env} {cfg : Config} {d : Dir} {s : Stats} {e : Entry}
    (h : e ∈ (cleanupAux false env cfg d s).dir) :
    e ∈ d ∧ (e.name = FName.base ∨ cleanupEntryCond env cfg e = false) := by
  induction d generalizing s with
  | nil => simp [cleanupAux] at h
  | cons e2 es ih =>
      unfold cleanupAux at h
      split at h
      · simp only [List.mem_cons] at h
        rcases h with h | h
        · subst h
          exact ⟨List.mem_cons_self _ _, Or.inl (by assumption)⟩
        · obtain ⟨h1, h2⟩ := ih h
          exact ⟨List.mem_cons_of_mem _ h1, h2⟩
      · split at h
        · rw [if_neg (by simp : ¬(false = true))] at h
          obtain ⟨h1, h2⟩ := ih h
          exact ⟨List.mem_cons_of_mem _ h1, h2⟩
        · simp only [List.mem_cons] at h
          rcases h with h | h
          · subst h
            refine ⟨List.mem_cons_self _ _, Or.inr ?_⟩
            simpa using (by assumption : ¬cleanupEntryCond env cfg e = true)
          · obtain ⟨h1, h2⟩ := ih h
            exact ⟨List.mem_cons_of_mem _ h1, h2⟩

theorem cleanupAux_allKept (env : Env) (cfg : Config) {d : Dir} (s : Stats)
    (h : ∀ e ∈ d, e.name = FName.base ∨ cleanupEntryCond env cfg e = false) :
    cleanupAux false env cfg d s = ⟨d, s⟩ := by
  induction d generalizing s with
  | nil => rfl
  | cons e es ih =>
      have hrest : ∀ e2 ∈ es, e2.name = FName.base ∨ cleanupEntryCond env cfg e2 = false :=
        fun e2 h2 => h e2 (List.mem_cons_of_mem e h2)
      unfold cleanupAux
      rcases h e (List.mem_cons_self e es) with hb | hc
      · rw [if_pos hb, ih _ hrest]
      · by_cases hb : e.name = FName.base
        · rw [if_pos hb, ih _ hrest]
        · rw [if_neg hb, if_neg (by rw [hc]; simp), ih _ hrest]


theorem cleanupAux_stats_frame (dry : Bool) (env : Env) (cfg : Config) (d : Dir) (s : Stats) :
    (cleanupAux dry env cfg d s).stats.rotated = s.rotated ∧
    (cleanupAux dry env cfg d s).stats.compressed = s.compressed ∧
    (cleanupAux dry env cfg d s).stats.errors = s.errors := by
  induction d generalizing s with
  | nil => exact ⟨rfl, rfl, rfl⟩
  | cons e es ih =>
      unfold cleanupAux
      split
      · exact ih s
      · split
        · split
          · exact ih _
          · exact ih _
        · exact ih s

/-- Second run of the real sweep on the output of a first run changes
nothing: the surviving entries all fail the deletion condition, so no
file is deleted and no statistic moves. -/
theorem cleanup_idem (env : Env) (cfg : Config) (st : St) :
    cleanupOldRotations false env cfg (cleanupOldRotations false env cfg st)
      = cleanupOldRotations false env cfg st := by
  unfold cleanupOldRotations
  exact cleanupAux_allKept env cfg _ (fun e he => (cleanupAux_mem he).2)

/-! Lemmas about the copy-and-truncate step and the trigger. -/

theorem rotateCurrent_dry_dir (now : Int) (st : St) :
    (rotateCurrent true now st).dir = st.dir := rfl

theorem rotateCurrent_dry_stats (now : Int) (st : St) :
    (rotateCurrent true now st).stats
      = { st.stats with rotated := st.stats.rotated + 1 } := rfl

theorem rotateCurrent_real_dir {st : St} {fd : FileData} (now : Int)
    (h : lookupF st.dir .base = some fd) :
    (rotateCurrent false now st).dir
      = setF (setF st.dir (.gen 1 false) fd) .base { content := [], mtime := now } := by
  simp [rotateCurrent, h]

theorem rotateCurrent_real_stats {st : St} {fd : FileData} (now : Int)
    (h : lookupF st.dir .base = some fd) :
    (rotateCurrent false now st).stats
      = { st.stats with rotated := st.stats.rotated + 1 } := by
  simp [rotateCurrent, h]

theorem wf_rotateCurrent (dry : Bool) (now : Int) {st : St} (h : wfDirB st.dir = true) :
    wfDirB (rotateCurrent dry now st).dir = true := by
  unfold rotateCurrent
  cases dry
  · simp only [Bool.false_eq_true, if_false]
    cases lookupF st.dir .base
    · exact h
    · exact wf_setF _ _ (wf_setF _ _ h)
  · exact h

theorem shouldRotate_isSome {cfg : Config} {d : Dir} (h : shouldRotate cfg d = true) :
    ∃ fd, lookupF d .base = some fd := by
  unfold shouldRotate at h
  cases hb : lookupF d .base with
  | none =>
      rw [hb] at h
      simp at h
  | some fd => exact ⟨fd, rfl⟩

/-! Statistics of the whole pipeline. -/

/-- In either mode the pipeline increments `rotated` exactly once per
file that passes the trigger check, and never otherwise. -/
theorem processLogFile_rotated (dry : Bool) (env : Env) (cfg : Config) (st : St) :
    (processLogFile dry env cfg st).stats.rotated
      = st.stats.rotated + (if shouldRotate cfg st.dir then 1 else 0) := by
  unfold processLogFile
  by_cases hr : shouldRotate cfg st.dir
  · rw [if_pos hr, if_pos hr]
    set st1 : St := { dir := shiftRotations dry cfg.maxRotations st.dir, stats := st.stats }
      with hst1
    have hbase : ∃ fd, lookupF st1.dir .base = some fd := by
      obtain ⟨fd, hfd⟩ := shouldRotate_isSome hr
      refine ⟨fd, ?_⟩
      rw [hst1]
      rw [show st1.dir = shiftRotations dry cfg.maxRotations st.dir from rfl]
      unfold shiftRotations
      rw [lookupF_shiftAux_base]
      exact hfd
    obtain ⟨fd, hfd⟩ := hbase
    have hrot : (rotateCurrent dry env.now st1).stats.rotated = st.stats.rotated + 1 := by
      cases dry
      · rw [rotateCurrent_real_stats env.now hfd]
      · rw [rotateCurrent_dry_stats]
    have hcomp : ∀ st2 : St,
        ((if cfg.compress then (compressRotatedLogs dry env cfg.maxRotations st2).1
          else st2)).stats.rotated = st2.stats.rotated := by
      intro st2
      split
      · exact compressFrom_rotated dry env 1 cfg.maxRotations st2
      · rfl
    rw [show cleanupOldRotations dry env cfg _
        = cleanupAux dry env cfg _ _ from rfl]
    rw [(cleanupAux_stats_frame dry env cfg _ _).1, hcomp, hrot]
  · rw [if_neg hr, if_neg hr]
    omega

/-- When no compression failure occurs, the pipeline leaves the error
counter unchanged in either mode. -/
theorem processLogFile_errors (dry : Bool) (env : Env) (cfg : Config) (st : St)
    (hok : ∀ j, env.cfail j = .ok) :
    (processLogFile dry env cfg st).stats.errors = st.stats.errors := by
  unfold processLogFile
  by_cases hr : shouldRotate cfg st.dir
  · rw [if_pos hr]
    set st1 : St := { dir := shiftRotations dry cfg.maxRotations st.dir, stats := st.stats }
      with hst1
    obtain ⟨fd, hfd⟩ : ∃ fd, lookupF st1.dir .base = some fd := by
      obtain ⟨fd, hfd⟩ := shouldRotate_isSome hr
      refine ⟨fd, ?_⟩
      rw [hst1]
      rw [show st1.dir = shiftRotations dry cfg.maxRotations st.dir from rfl]
      unfold shiftRotations
      rw [lookupF_shiftAux_base]
      exact hfd
    have hrot : (rotateCurrent dry env.now st1).stats.errors = st.stats.errors := by
      cases dry
      · rw [rotateCurrent_real_stats env.now hfd]
      · rw [rotateCurrent_dry_stats]
    have hcomp : ∀ st2 : St,
        ((if cfg.compress then (compressRotatedLogs dry env cfg.maxRotations st2).1
          else st2)).stats.errors = st2.stats.errors := by
      intro st2
      split
      · cases dry
        · unfold compressRotatedLogs
          rw [compressFrom_errors, failCount_zero 1 cfg.maxRotations hok]
          omega
        · exact compressFrom_dry_errors env 1 cfg.maxRotations st2
      · rfl
    rw [show cleanupOldRotations dry env cfg _
        = cleanupAux dry env cfg _ _ from rfl]
    rw [(cleanupAux_stats_frame dry env cfg _ _).2.2, hcomp, hrot]
  · rw [if_neg hr]

/-- Dry-run never changes the directory: every mutation in the pipeline
is guarded by the dry-run flag. -/
theorem processLogFile_dry_dir (env : Env) (cfg : Config) (st : St) :
    (processLogFile true env cfg st).dir = st.dir := by
  unfold processLogFile
  by_cases hr : shouldRotate cfg st.dir
  · rw [if_pos hr]
    rw [show cleanupOldRotations true env cfg _
        = cleanupAux true env cfg _ _ from rfl]
    rw [cleanupAux_dry_dir]
    split
    · rw [show compressRotatedLogs true env cfg.maxRotations _
          = compressFrom true env 1 cfg.maxRotations _ from rfl]
      rw [compressFrom_dry_dir, rotateCurrent_dry_dir]
      unfold shiftRotations
      rw [shiftAux_dry]
    · rw [rotateCurrent_dry_dir]
      unfold shiftRotations
      rw [shiftAux_dry]
  · rw [if_neg hr]


/-- Characterization of the real `_shift_rotations` for `maxRotations = k ≥ 1`
on a directory with at most one artifact per generation number and an
empty slot `k`: generation 1 ends free, each generation `1..k-1` moves
up by one (form preserved), and everything else is untouched. -/
theorem shiftRotations_spec (k : Nat) (d : Dir) (hk : 1 ≤ k)
    (hone : ∀ j, j ≤ k → lookupF d (.gen j false) = none ∨ lookupF d (.gen j true) = none)
    (htop : ∀ g, lookupF d (.gen k g) = none) :
    (∀ g, lookupF (shiftRotations false k d) (.gen 1 g) = none) ∧
    (∀ j g, 2 ≤ j → j ≤ k →
      lookupF (shiftRotations false k d) (.gen j g) = lookupF d (.gen (j - 1) g)) ∧
    (∀ j g, k < j →
      lookupF (shiftRotations false k d) (.gen j g) = lookupF d (.gen j g)) ∧
    (∀ g, lookupF (shiftRotations false k d) (.gen 0 g) = lookupF d (.gen 0 g)) ∧
    lookupF (shiftRotations false k d) .base = lookupF d .base ∧
    (∀ s, lookupF (shiftRotations false k d) (.weird s) = lookupF d (.weird s)) := by
  unfold shiftRotations
  have hb : k - 1 + 1 = k := by omega
  have hspec := shiftAux_spec (k - 1) d (fun j hj => hone j (by omega))
    (by intro g; rw [hb]; exact htop g)
  refine ⟨hspec.1, ?_, ?_, lookupF_shiftAux_gen0 _ _ _,
    lookupF_shiftAux_base _ _ _, fun s => lookupF_shiftAux_weird _ _ _ _⟩
  · intro j g h2 hj
    exact hspec.2.1 j g h2 (by omega)
  · intro j g hj
    exact hspec.2.2 j g (by omega)

theorem compressOne_failMid_gz {env : Env} {i : Nat} {st : St} {fd : FileData} {w : List Nat}
    (hm : env.cfail i = .failMid w)
    (hpl : lookupF st.dir (.gen i false) = some fd)
    (hgz : lookupF st.dir (.gen i true) = none) :
    lookupF ((compressOne false env i st).1).dir (.gen i true)
      = some ⟨w, env.now⟩ := by
  simp only [compressOne, hpl, hgz, hm, Bool.false_eq_true, if_false]
  exact lookupF_setF_self _ _ _

theorem compressFrom_failMid_gz {env : Env} {j : Nat} (i fuel : Nat) (st : St)
    {fd : FileData} {w : List Nat}
    (hj1 : i ≤ j) (hj2 : j < i + fuel) (hm : env.cfail j = .failMid w)
    (hpl : lookupF st.dir (.gen j false) = some fd)
    (hgz : lookupF st.dir (.gen j true) = none) :
    lookupF ((compressFrom false env i fuel st).1).dir (.gen j true)
      = some ⟨w, env.now⟩ := by
  induction fuel generalizing i st with
  | zero => omega
  | succ fuel ih =>
      rw [compressFrom]
      by_cases hij : j = i
      · subst hij
        rw [compressFrom_frame false env _ _ _
          (by intro j' g' hj1' hj2' hn; rw [FName.gen.injEq] at hn; omega)]
        exact compressOne_failMid_gz hm hpl hgz
      · have hfr : ∀ g : Bool,
            lookupF ((compressOne false env i st).1).dir (.gen j g)
              = lookupF st.dir (.gen j g) := by
          intro g
          exact compressOne_frame false env i st
            (by intro g'' hg; rw [FName.gen.injEq] at hg; exact hij hg.1)
        exact ih (i + 1) _ (by omega) (by omega) ((hfr false).trans hpl) ((hfr true).trans hgz)


/-! Claim theorems. -/

/-- C2: for a group with `maxGenerations = 3` and a filesystem holding a
qualifying `app.log` plus pre-existing `app.log.1` and `app.log.2.gz`,
after the shift and the copy-and-truncate (before the compression pass)
the filesystem holds `app.log` (empty, stamped now), `app.log.1` (an
uncompressed snapshot of the old contents, mtime preserved by `copy2`),
`app.log.2` (renamed from `.1`), `app.log.3.gz` (renamed from `.2.gz`),
and no `app.log.2.gz`. -/
theorem c2_rotation_scenario :
    lookupF (rotateCurrent false 1000 ⟨shiftRotations false 3
        [⟨.base, ⟨[104, 105], 100⟩⟩, ⟨.gen 1 false, ⟨[1], 50⟩⟩, ⟨.gen 2 true, ⟨[2, 2], 60⟩⟩],
        Stats.init⟩).dir .base = some ⟨[], 1000⟩ ∧
    lookupF (rotateCurrent false 1000 ⟨shiftRotations false 3
        [⟨.base, ⟨[104, 105], 100⟩⟩, ⟨.gen 1 false, ⟨[1], 50⟩⟩, ⟨.gen 2 true, ⟨[2, 2], 60⟩⟩],
        Stats.init⟩).dir (.gen 1 false) = some ⟨[104, 105], 100⟩ ∧
    lookupF (rotateCurrent false 1000 ⟨shiftRotations false 3
        [⟨.base, ⟨[104, 105], 100⟩⟩, ⟨.gen 1 false, ⟨[1], 50⟩⟩, ⟨.gen 2 true, ⟨[2, 2], 60⟩⟩],
        Stats.init⟩).dir (.gen 1 true) = none ∧
    lookupF (rotateCurrent false 1000 ⟨shiftRotations false 3
        [⟨.base, ⟨[104, 105], 100⟩⟩, ⟨.gen 1 false, ⟨[1], 50⟩⟩, ⟨.gen 2 true, ⟨[2, 2], 60⟩⟩],
        Stats.init⟩).dir (.gen 2 false) = some ⟨[1], 50⟩ ∧
    lookupF (rotateCurrent false 1000 ⟨shiftRotations false 3
        [⟨.base, ⟨[104, 105], 100⟩⟩, ⟨.gen 1 false, ⟨[1], 50⟩⟩, ⟨.gen 2 true, ⟨[2, 2], 60⟩⟩],
        Stats.init⟩).dir (.gen 3 true) = some ⟨[2, 2], 60⟩ ∧
    lookupF (rotateCurrent false 1000 ⟨shiftRotations false 3
        [⟨.base, ⟨[104, 105], 100⟩⟩, ⟨.gen 1 false, ⟨[1], 50⟩⟩, ⟨.gen 2 true, ⟨[2, 2], 60⟩⟩],
        Stats.init⟩).dir (.gen 2 true) = none := by
  decide

/-- C3 counterexample: the claim fails on two concrete pre-states.
First, with `maxGenerations = 2` and both `app.log.1` and `app.log.1.gz`
present, the shift moves only the compressed artifact (the `elif` skips
the plain one), so generation 1's slot is NOT free afterwards.  Second,
with `app.log.1` and `app.log.2` present, renaming `.1` to `.2`
overwrites `.2`, so the shift loses a file (2 artifacts before, 1
after): it does delete data. -/
theorem c3_counterexample :
    (lookupF (shiftRotations false 2
        [⟨.gen 1 false, ⟨[1], 50⟩⟩, ⟨.gen 1 true, ⟨[2], 60⟩⟩]) (.gen 1 false)).isSome = true ∧
    (shiftRotations false 2
        [⟨.gen 1 false, ⟨[1], 50⟩⟩, ⟨.gen 2 false, ⟨[2], 60⟩⟩]).length < 2 := by
  decide

/-- C3 amended: for every `maxGenerations = k ≥ 1` and every directory in
which each generation number carries at most one artifact (never both the
plain and the compressed form) and generation `k`'s slot is empty, the
shift renames each existing generation `i` (for `i = k-1` down to `1`,
compressed artifact moved when present, else the plain one) to `i + 1`,
deletes no file, and afterwards generation 1's slot (both `<name>.1` and
`<name>.1.gz`) is free: slots `2..k` hold exactly their predecessor's
artifact, and every other name is untouched. -/
theorem c3_amended_shift_spec (k : Nat) (d : Dir) (hk : 1 ≤ k)
    (hone : ∀ j, j ≤ k → lookupF d (.gen j false) = none ∨ lookupF d (.gen j true) = none)
    (htop : ∀ g : Bool, lookupF d (.gen k g) = none) :
    (∀ g, lookupF (shiftRotations false k d) (.gen 1 g) = none) ∧
    (∀ j g, 2 ≤ j → j ≤ k →
      lookupF (shiftRotations false k d) (.gen j g) = lookupF d (.gen (j - 1) g)) ∧
    (∀ j g, k < j →
      lookupF (shiftRotations false k d) (.gen j g) = lookupF d (.gen j g)) ∧
    (∀ g, lookupF (shiftRotations false k d) (.gen 0 g) = lookupF d (.gen 0 g)) ∧
    lookupF (shiftRotations false k d) .base = lookupF d .base ∧
    (∀ s, lookupF (shiftRotations false k d) (.weird s) = lookupF d (.weird s)) :=
  shiftRotations_spec k d hk hone htop

/-- C3 amended, witness at a concrete input. -/
theorem c3_amended_shift_spec_witness :
    (∀ g, lookupF (shiftRotations false 3
        [⟨.base, ⟨[9], 0⟩⟩, ⟨.gen 1 false, ⟨[1], 50⟩⟩, ⟨.gen 2 true, ⟨[2], 60⟩⟩])
      (.gen 1 g) = none) ∧
    (∀ j g, 2 ≤ j → j ≤ 3 →
      lookupF (shiftRotations false 3
          [⟨.base, ⟨[9], 0⟩⟩, ⟨.gen 1 false, ⟨[1], 50⟩⟩, ⟨.gen 2 true, ⟨[2], 60⟩⟩])
        (.gen j g)
        = lookupF [⟨.base, ⟨[9], 0⟩⟩, ⟨.gen 1 false, ⟨[1], 50⟩⟩, ⟨.gen 2 true, ⟨[2], 60⟩⟩]
            (.gen (j - 1) g)) ∧
    (∀ j g, 3 < j →
      lookupF (shiftRotations false 3
          [⟨.base, ⟨[9], 0⟩⟩, ⟨.gen 1 false, ⟨[1], 50⟩⟩, ⟨.gen 2 true, ⟨[2], 60⟩⟩])
        (.gen j g)
        = lookupF [⟨.base, ⟨[9], 0⟩⟩, ⟨.gen 1 false, ⟨[1], 50⟩⟩, ⟨.gen 2 true, ⟨[2], 60⟩⟩]
            (.gen j g)) ∧
    (∀ g, lookupF (shiftRotations false 3
        [⟨.base, ⟨[9], 0⟩⟩, ⟨.gen 1 false, ⟨[1], 50⟩⟩, ⟨.gen 2 true, ⟨[2], 60⟩⟩])
      (.gen 0 g)
      = lookupF [⟨.base, ⟨[9], 0⟩⟩, ⟨.gen 1 false, ⟨[1], 50⟩⟩, ⟨.gen 2 true, ⟨[2], 60⟩⟩]
          (.gen 0 g)) ∧
    lookupF (shiftRotations false 3
        [⟨.base, ⟨[9], 0⟩⟩, ⟨.gen 1 false, ⟨[1], 50⟩⟩, ⟨.gen 2 true, ⟨[2], 60⟩⟩]) .base
      = lookupF [⟨.base, ⟨[9], 0⟩⟩, ⟨.gen 1 false, ⟨[1], 50⟩⟩, ⟨.gen 2 true, ⟨[2], 60⟩⟩]
          .base ∧
    (∀ s, lookupF (shiftRotations false 3
        [⟨.base, ⟨[9], 0⟩⟩, ⟨.gen 1 false, ⟨[1], 50⟩⟩, ⟨.gen 2 true, ⟨[2], 60⟩⟩])
      (.weird s)
      = lookupF [⟨.base, ⟨[9], 0⟩⟩, ⟨.gen 1 false, ⟨[1], 50⟩⟩, ⟨.gen 2 true, ⟨[2], 60⟩⟩]
          (.weird s)) :=
  c3_amended_shift_spec 3
    [⟨.base, ⟨[9], 0⟩⟩, ⟨.gen 1 false, ⟨[1], 50⟩⟩, ⟨.gen 2 true, ⟨[2], 60⟩⟩]
    (by decide) (by decide) (by decide)

/-- C4 counterexample: starting from the same snapshot (a qualifying
`app.log` plus `app.log.2`, `maxGenerations = 2`, compression on, no
failures), a real run and a dry run produce different statistics: the
real run compresses the freshly created `app.log.1` as well
(`compressed = 2`), while the dry run evaluates the compression loop
against the unmutated filesystem and only counts `app.log.2`
(`compressed = 1`). -/
theorem c4_counterexample :
    (processLogFile false ⟨1000, id, fun _ => .ok, "app.log"⟩ ⟨30, 2, true, 0⟩
        ⟨[⟨.base, ⟨[7], 1000⟩⟩, ⟨.gen 2 false, ⟨[9], 1000⟩⟩], Stats.init⟩).stats
      ≠ (processLogFile true ⟨1000, id, fun _ => .ok, "app.log"⟩ ⟨30, 2, true, 0⟩
        ⟨[⟨.base, ⟨[7], 1000⟩⟩, ⟨.gen 2 false, ⟨[9], 1000⟩⟩], Stats.init⟩).stats := by
  decide

/-- C4 amended: for every configuration and starting snapshot, when no
I/O failure occurs, a dry run and a real run agree on the `rotated` and
`errors` counters; the `compressed`, `deleted` and `bytes_freed`
counters may legitimately differ, because the dry run evaluates each
later pass against the unmutated filesystem. -/
theorem c4_amended_dry_real_stats (env : Env) (cfg : Config) (st : St)
    (hok : ∀ j, env.cfail j = CompressOutcome.ok) :
    (processLogFile false env cfg st).stats.rotated
      = (processLogFile true env cfg st).stats.rotated ∧
    (processLogFile false env cfg st).stats.errors
      = (processLogFile true env cfg st).stats.errors := by
  constructor
  · rw [processLogFile_rotated, processLogFile_rotated]
  · rw [processLogFile_errors false env cfg st hok, processLogFile_errors true env cfg st hok]

/-- C4 amended, witness at a concrete input. -/
theorem c4_amended_dry_real_stats_witness :
    (processLogFile false ⟨1000, id, fun _ => .ok, "app.log"⟩ ⟨30, 2, true, 0⟩
        ⟨[⟨.base, ⟨[7], 1000⟩⟩, ⟨.gen 2 false, ⟨[9], 1000⟩⟩], Stats.init⟩).stats.rotated
      = (processLogFile true ⟨1000, id, fun _ => .ok, "app.log"⟩ ⟨30, 2, true, 0⟩
        ⟨[⟨.base, ⟨[7], 1000⟩⟩, ⟨.gen 2 false, ⟨[9], 1000⟩⟩], Stats.init⟩).stats.rotated ∧
    (processLogFile false ⟨1000, id, fun _ => .ok, "app.log"⟩ ⟨30, 2, true, 0⟩
        ⟨[⟨.base, ⟨[7], 1000⟩⟩, ⟨.gen 2 false, ⟨[9], 1000⟩⟩], Stats.init⟩).stats.errors
      = (processLogFile true ⟨1000, id, fun _ => .ok, "app.log"⟩ ⟨30, 2, true, 0⟩
        ⟨[⟨.base, ⟨[7], 1000⟩⟩, ⟨.gen 2 false, ⟨[9], 1000⟩⟩], Stats.init⟩).stats.errors :=
  c4_amended_dry_real_stats ⟨1000, id, fun _ => .ok, "app.log"⟩ ⟨30, 2, true, 0⟩
    ⟨[⟨.base, ⟨[7], 1000⟩⟩, ⟨.gen 2 false, ⟨[9], 1000⟩⟩], Stats.init⟩ (fun _ => rfl)

/-- C5: in the real compression pass, every unlink of an uncompressed
generation is preceded in the event trace by the complete write of its
compressed artifact; and for any generation that is eligible for
compression but whose compression fails, the error counter is
incremented (by at least one) and the uncompressed original is still on
disk, untouched, at the end of the pass. -/
theorem c5_compress_ordering_and_failure (env : Env) (k : Nat) (st : St) :
    safeTrace (compressRotatedLogs false env k st).2 ∧
    (∀ i, 1 ≤ i → i ≤ k → eligibleB st.dir i = true → failsB env i = true →
      lookupF ((compressRotatedLogs false env k st).1).dir (.gen i false)
        = lookupF st.dir (.gen i false) ∧
      st.stats.errors + 1 ≤ ((compressRotatedLogs false env k st).1).stats.errors) := by
  refine ⟨compressFrom_safe false env 1 k st, ?_⟩
  intro i h1 h2 hel hf
  refine ⟨compressFrom_failsPlain env 1 k st hf, ?_⟩
  unfold compressRotatedLogs
  rw [compressFrom_errors]
  have := failCount_pos env 1 k i h1 (by omega) hel hf
  omega

/-- C5, witness at a concrete input: the ordering conjunct instantiated,
and the failure conjunct applied to a concretely eligible, failing
generation. -/
theorem c5_compress_ordering_and_failure_witness :
    safeTrace (compressRotatedLogs false ⟨0, id, fun _ => .failNoCreate, "app.log"⟩ 1
        ⟨[⟨.gen 1 false, ⟨[1], 0⟩⟩], Stats.init⟩).2 ∧
    (lookupF ((compressRotatedLogs false ⟨0, id, fun _ => .failNoCreate, "app.log"⟩ 1
        ⟨[⟨.gen 1 false, ⟨[1], 0⟩⟩], Stats.init⟩).1).dir (.gen 1 false)
      = lookupF [⟨.gen 1 false, ⟨[1], 0⟩⟩] (.gen 1 false) ∧
    Stats.init.errors + 1
      ≤ ((compressRotatedLogs false ⟨0, id, fun _ => .failNoCreate, "app.log"⟩ 1
        ⟨[⟨.gen 1 false, ⟨[1], 0⟩⟩], Stats.init⟩).1).stats.errors) :=
  ⟨(c5_compress_ordering_and_failure ⟨0, id, fun _ => .failNoCreate, "app.log"⟩ 1
      ⟨[⟨.gen 1 false, ⟨[1], 0⟩⟩], Stats.init⟩).1,
    (c5_compress_ordering_and_failure ⟨0, id, fun _ => .failNoCreate, "app.log"⟩ 1
      ⟨[⟨.gen 1 false, ⟨[1], 0⟩⟩], Stats.init⟩).2 1
      (by decide) (by decide) (by decide) (by decide)⟩

/-- C6: the retention sweep deletes an artifact (any name but the base
file) exactly when `tooOld` (mtime strictly older than `now` minus
`maxAgeDays` days) or `tooMany` (extracted generation number strictly
above `maxGenerations`) holds for that artifact; the decision depends
only on the artifact itself, never on its siblings. -/
theorem c6_sweep_delete_iff (env : Env) (cfg : Config) (st : St) (n : FName) (fd : FileData)
    (hwf : wfDirB st.dir = true) (hn : n ≠ FName.base)
    (h : lookupF st.dir n = some fd) :
    lookupF (cleanupOldRotations false env cfg st).dir n
      = if tooOldB env cfg fd || tooManyB env cfg n then none else some fd := by
  unfold cleanupOldRotations
  rw [cleanupAux_lookup_some env cfg st.stats hwf hn h]
  rfl

/-- C6, witness at a concrete input (an artifact 31 days old with
`maxAgeDays = 30` is deleted). -/
theorem c6_sweep_delete_iff_witness :
    lookupF (cleanupOldRotations false ⟨86400 * 31, id, fun _ => .ok, "app.log"⟩
        ⟨30, 5, true, 0⟩ ⟨[⟨.gen 1 false, ⟨[1], 0⟩⟩], Stats.init⟩).dir (.gen 1 false)
      = if tooOldB ⟨86400 * 31, id, fun _ => .ok, "app.log"⟩ ⟨30, 5, true, 0⟩ ⟨[1], 0⟩
          || tooManyB ⟨86400 * 31, id, fun _ => .ok, "app.log"⟩ ⟨30, 5, true, 0⟩ (.gen 1 false)
        then none else some ⟨[1], 0⟩ :=
  c6_sweep_delete_iff ⟨86400 * 31, id, fun _ => .ok, "app.log"⟩ ⟨30, 5, true, 0⟩
    ⟨[⟨.gen 1 false, ⟨[1], 0⟩⟩], Stats.init⟩ (.gen 1 false) ⟨[1], 0⟩
    (by decide) (by decide) (by decide)

/-- C7: with the dry-run flag set the pipeline leaves the filesystem
byte-for-byte unchanged, for every configuration, environment and
starting state: no file is created, renamed, truncated, compressed or
deleted. -/
theorem c7_dry_run_frame (env : Env) (cfg : Config) (st : St) :
    (processLogFile true env cfg st).dir = st.dir :=
  processLogFile_dry_dir env cfg st

/-- C8: running the real retention sweep twice in succession (same
`now`, same policy, no intervening rotation) is the same as running it
once: the second run deletes nothing, renames nothing (the sweep never
renames), and leaves every statistic unchanged. -/
theorem c8_sweep_idempotent (env : Env) (cfg : Config) (st : St) :
    cleanupOldRotations false env cfg (cleanupOldRotations false env cfg st)
      = cleanupOldRotations false env cfg st :=
  cleanup_idem env cfg st

/-- C9: the retention sweep also visits files matching `<base>.*` whose
name has no `.<digits>` / `.<digits>.gz` generation suffix; for those
the count condition is `False` and the file is deleted exactly when it
is too old. -/
theorem c9_sweep_nongen_files (env : Env) (cfg : Config) (st : St) (s : String)
    (fd : FileData) (hwf : wfDirB st.dir = true)
    (h : lookupF st.dir (.weird s) = some fd)
    (hp : parseName (env.baseName ++ "." ++ s) = none) :
    tooManyB env cfg (.weird s) = false ∧
    lookupF (cleanupOldRotations false env cfg st).dir (.weird s)
      = if tooOldB env cfg fd then none else some fd := by
  have hmany : tooManyB env cfg (.weird s) = false := by
    simp only [tooManyB, genNumOf, hp]
  refine ⟨hmany, ?_⟩
  unfold cleanupOldRotations
  rw [cleanupAux_lookup_some env cfg st.stats hwf (by simp) h]
  have hc : cleanupEntryCond env cfg ⟨.weird s, fd⟩ = tooOldB env cfg fd := by
    unfold cleanupEntryCond
    rw [show (⟨.weird s, fd⟩ : Entry).name = .weird s from rfl, hmany]
    simp
  rw [hc]

/-- C9, witness at a concrete input (`app.log.old`, 31 days old, is
deleted even though it has no generation suffix). -/
theorem c9_sweep_nongen_files_witness :
    tooManyB ⟨86400 * 31, id, fun _ => .ok, "app.log"⟩ ⟨30, 5, true, 0⟩ (.weird "old")
        = false ∧
    lookupF (cleanupOldRotations false ⟨86400 * 31, id, fun _ => .ok, "app.log"⟩
        ⟨30, 5, true, 0⟩ ⟨[⟨.weird "old", ⟨[1], 0⟩⟩], Stats.init⟩).dir (.weird "old")
      = if tooOldB ⟨86400 * 31, id, fun _ => .ok, "app.log"⟩ ⟨30, 5, true, 0⟩ ⟨[1], 0⟩
        then none else some ⟨[1], 0⟩ :=
  c9_sweep_nongen_files ⟨86400 * 31, id, fun _ => .ok, "app.log"⟩ ⟨30, 5, true, 0⟩
    ⟨[⟨.weird "old", ⟨[1], 0⟩⟩], Stats.init⟩ "old" ⟨[1], 0⟩
    (by decide) (by decide) (by decide)

/-- C10: if compressing generation `i` fails after the output file was
created (`failMid`), the possibly incomplete `<name>.<i>.gz` is left on
disk next to the untouched `<name>.<i>`; and since the compression loop
skips any generation whose `.gz` already exists, every later compression
pass (any environment, any bound) leaves both artifacts in place. -/
theorem c10_failed_compress_coexist (env : Env) (k : Nat) (st : St) (i : Nat)
    (fd : FileData) (w : List Nat)
    (h1 : 1 ≤ i) (h2 : i ≤ k)
    (hpl : lookupF st.dir (.gen i false) = some fd)
    (hgz : lookupF st.dir (.gen i true) = none)
    (hm : env.cfail i = .failMid w) :
    lookupF ((compressRotatedLogs false env k st).1).dir (.gen i false) = some fd ∧
    lookupF ((compressRotatedLogs false env k st).1).dir (.gen i true)
      = some ⟨w, env.now⟩ ∧
    (∀ (env2 : Env) (k2 : Nat),
      lookupF ((compressRotatedLogs false env2 k2
          (compressRotatedLogs false env k st).1).1).dir (.gen i false) = some fd ∧
      lookupF ((compressRotatedLogs false env2 k2
          (compressRotatedLogs false env k st).1).1).dir (.gen i true)
        = some ⟨w, env.now⟩) := by
  have hfail : failsB env i = true := by
    unfold failsB
    rw [hm]
  have hplain : lookupF ((compressRotatedLogs false env k st).1).dir (.gen i false)
      = some fd := by
    unfold compressRotatedLogs
    rw [compressFrom_failsPlain env 1 k st hfail]
    exact hpl
  have hgzout : lookupF ((compressRotatedLogs false env k st).1).dir (.gen i true)
      = some ⟨w, env.now⟩ :=
    compressFrom_failMid_gz 1 k st h1 (by omega) hm hpl hgz
  refine ⟨hplain, hgzout, ?_⟩
  intro env2 k2
  have hnel : eligibleB ((compressRotatedLogs false env k st).1).dir i = false := by
    unfold eligibleB
    rw [hgzout]
    simp
  exact ⟨(compressFrom_notEligible false env2 1 k2 _ hnel false).trans hplain,
    (compressFrom_notEligible false env2 1 k2 _ hnel true).trans hgzout⟩

/-- C10, witness at a concrete input. -/
theorem c10_failed_compress_coexist_witness :
    lookupF ((compressRotatedLogs false ⟨1000, id, fun _ => .failMid [5], "app.log"⟩ 1
        ⟨[⟨.gen 1 false, ⟨[1, 1], 50⟩⟩], Stats.init⟩).1).dir (.gen 1 false)
      = some ⟨[1, 1], 50⟩ ∧
    lookupF ((compressRotatedLogs false ⟨1000, id, fun _ => .failMid [5], "app.log"⟩ 1
        ⟨[⟨.gen 1 false, ⟨[1, 1], 50⟩⟩], Stats.init⟩).1).dir (.gen 1 true)
      = some ⟨[5], 1000⟩ ∧
    (∀ (env2 : Env) (k2 : Nat),
      lookupF ((compressRotatedLogs false env2 k2
          (compressRotatedLogs false ⟨1000, id, fun _ => .failMid [5], "app.log"⟩ 1
            ⟨[⟨.gen 1 false, ⟨[1, 1], 50⟩⟩], Stats.init⟩).1).1).dir (.gen 1 false)
        = some ⟨[1, 1], 50⟩ ∧
      lookupF ((compressRotatedLogs false env2 k2
          (compressRotatedLogs false ⟨1000, id, fun _ => .failMid [5], "app.log"⟩ 1
            ⟨[⟨.gen 1 false, ⟨[1, 1], 50⟩⟩], Stats.init⟩).1).1).dir (.gen 1 true)
        = some ⟨[5], 1000⟩) :=
  c10_failed_compress_coexist ⟨1000, id, fun _ => .failMid [5], "app.log"⟩ 1
    ⟨[⟨.gen 1 false, ⟨[1, 1], 50⟩⟩], Stats.init⟩ 1 ⟨[1, 1], 50⟩ [5]
    (by decide) (by decide) (by decide) (by decide) (by decide)


theorem isSome_false_eq_none {α : Type} {o : Option α} (h : o.isSome = false) : o = none := by
  cases o
  · rfl
  · simp at h

/-- C1 counterexample: the claimed invariant fails for a pre-rotation
state with a gap.  Starting from a qualifying `app.log` plus only
`app.log.3.gz` (`maxGenerations = 5`, compression on, everything fresh,
no failures), a full rotation pass shifts `.3.gz` to `.4.gz` and
compresses the new snapshot into `.1.gz`; generations 1 and 4 remain
with 2 and 3 absent, so the surviving generation numbers are not
contiguous. -/
theorem c1_counterexample :
    ¬(∀ n m : Nat,
      hasGenB (processLogFile false ⟨1000, id, fun _ => .ok, "app.log"⟩ ⟨30, 5, true, 0⟩
          ⟨[⟨.base, ⟨[1, 2, 3], 1000⟩⟩, ⟨.gen 3 true, ⟨[9], 1000⟩⟩], Stats.init⟩).dir n
          = true →
      1 ≤ m → m ≤ n →
      hasGenB (processLogFile false ⟨1000, id, fun _ => .ok, "app.log"⟩ ⟨30, 5, true, 0⟩
          ⟨[⟨.base, ⟨[1, 2, 3], 1000⟩⟩, ⟨.gen 3 true, ⟨[9], 1000⟩⟩], Stats.init⟩).dir m
          = true) := by
  intro h
  exact absurd (h 4 2 (by decide) (by decide) (by decide)) (by decide)

/-- C1 amended: for `maxGenerations = k`, a pre-rotation state whose
generation artifacts are exactly a contiguous range `1..m` with
`m + 1 ≤ k`, at most one artifact per number, and no artifact older than
the retention cutoff, a full rotation pass (with compression enabled and
no I/O failures) on a qualifying base file leaves the generation numbers
exactly `1..m+1`, contiguous from 1, and no generation number carries
both a plain and a compressed artifact. -/
theorem c1_amended_contiguity (env : Env) (cfg : Config) (st : St) (m : Nat)
    (hc : cfg.compress = true)
    (hrot : shouldRotate cfg st.dir = true)
    (hwf : wfDirB st.dir = true)
    (hok : ∀ j, env.cfail j = CompressOutcome.ok)
    (hm : m + 1 ≤ cfg.maxRotations)
    (hgens : ∀ n, n ≤ cfg.maxRotations → (hasGenB st.dir n = true ↔ (1 ≤ n ∧ n ≤ m)))
    (hone : ∀ n, n ≤ cfg.maxRotations →
      lookupF st.dir (.gen n false) = none ∨ lookupF st.dir (.gen n true) = none)
    (hfresh : ∀ n, n ≤ cfg.maxRotations → ∀ g : Bool,
      (lookupF st.dir (.gen n g)).all
        (fun fd => env.now - (cfg.maxAgeDays : Int) * 86400 ≤ fd.mtime) = true) :
    (∀ n, hasGenB (processLogFile false env cfg st).dir n = true ↔ (1 ≤ n ∧ n ≤ m + 1)) ∧
    (∀ n, lookupF (processLogFile false env cfg st).dir (.gen n false) = none ∨
          lookupF (processLogFile false env cfg st).dir (.gen n true) = none) := by
  have hk1 : 1 ≤ cfg.maxRotations := by omega
  obtain ⟨fd0, hfd0⟩ := shouldRotate_isSome hrot
  have hfresh' : ∀ n g fd, n ≤ cfg.maxRotations → lookupF st.dir (.gen n g) = some fd →
      env.now - (cfg.maxAgeDays : Int) * 86400 ≤ fd.mtime := by
    intro n g fd hn h
    have hh := hfresh n hn g
    rw [h] at hh
    simpa using hh
  have hgenfalse : ∀ n, n ≤ cfg.maxRotations → ¬(1 ≤ n ∧ n ≤ m) →
      lookupF st.dir (.gen n false) = none ∧ lookupF st.dir (.gen n true) = none := by
    intro n hn hr
    have hfalse : hasGenB st.dir n = false := by
      cases hh : hasGenB st.dir n
      · rfl
      · exact absurd ((hgens n hn).mp hh) hr
    unfold hasGenB at hfalse
    rw [Bool.or_eq_false_iff] at hfalse
    exact ⟨isSome_false_eq_none hfalse.1, isSome_false_eq_none hfalse.2⟩
  have htopk : ∀ g : Bool, lookupF st.dir (.gen cfg.maxRotations g) = none := by
    intro g
    have := hgenfalse cfg.maxRotations (le_refl _) (by omega)
    cases g
    · exact this.1
    · exact this.2
  have hPLF : processLogFile false env cfg st
      = cleanupOldRotations false env cfg
          ((compressRotatedLogs false env cfg.maxRotations
            (rotateCurrent false env.now
              ⟨shiftRotations false cfg.maxRotations st.dir, st.stats⟩)).1) := by
    simp [processLogFile, hrot, hc]
  rw [hPLF]
  set d1 := shiftRotations false cfg.maxRotations st.dir with hd1
  set st2 := rotateCurrent false env.now ⟨d1, st.stats⟩ with hst2
  set st3 := (compressRotatedLogs false env cfg.maxRotations st2).1 with hst3
  have hshift := shiftRotations_spec cfg.maxRotations st.dir hk1 hone htopk
  rw [← hd1] at hshift
  have hbase1 : lookupF d1 .base = some fd0 := by
    rw [hshift.2.2.2.2.1]
    exact hfd0
  have hd2 : st2.dir = setF (setF d1 (.gen 1 false) fd0) .base ⟨[], env.now⟩ := by
    rw [hst2]
    exact rotateCurrent_real_dir env.now hbase1
  have hs2g : ∀ n g, ¬(n = 1 ∧ g = false) →
      lookupF st2.dir (.gen n g) = lookupF d1 (.gen n g) := by
    intro n g hng
    rw [hd2, lookupF_setF_ne _ _ (fun h => FName.noConfusion h),
      lookupF_setF_ne _ _ (by
        intro h
        rw [FName.gen.injEq] at h
        exact hng ⟨h.1, h.2⟩)]
  have hs2_1f : lookupF st2.dir (.gen 1 false) = some fd0 := by
    rw [hd2, lookupF_setF_ne _ _ (fun h => FName.noConfusion h), lookupF_setF_self]
  have hs2_1t : lookupF st2.dir (.gen 1 true) = none := by
    rw [hs2g 1 true (by simp)]
    exact hshift.1 true
  have hs2_mid : ∀ n g, 2 ≤ n → n ≤ cfg.maxRotations →
      lookupF st2.dir (.gen n g) = lookupF st.dir (.gen (n - 1) g) := by
    intro n g h2 hn
    rw [hs2g n g (fun hng => absurd hng.1 (by omega))]
    exact hshift.2.1 n g h2 hn
  have hs2_hi : ∀ n g, cfg.maxRotations < n →
      lookupF st2.dir (.gen n g) = lookupF st.dir (.gen n g) := by
    intro n g hn
    rw [hs2g n g (fun hng => absurd hng.1 (by omega))]
    exact hshift.2.2.1 n g hn
  have hs2_0 : ∀ g, lookupF st2.dir (.gen 0 g) = lookupF st.dir (.gen 0 g) := by
    intro g
    rw [hs2g 0 g (fun hng => absurd hng.1 (by omega))]
    exact hshift.2.2.2.1 g
  have hnowfresh : env.now - (cfg.maxAgeDays : Int) * 86400 ≤ env.now := by
    have h0 : (0 : Int) ≤ (cfg.maxAgeDays : Int) * 86400 := by positivity
    omega
  -- Contents of the directory after the compression pass.
  have hdir3 : ∀ n, 1 ≤ n → n ≤ m + 1 →
      lookupF st3.dir (.gen n false) = none ∧
      ∃ fd, lookupF st3.dir (.gen n true) = some fd ∧
        env.now - (cfg.maxAgeDays : Int) * 86400 ≤ fd.mtime := by
    intro n h1 hn
    by_cases hn1 : n = 1
    · subst hn1
      have hco := compressFrom_eligible_ok env 1 cfg.maxRotations st2 (le_refl 1)
        (by omega) (hok 1) hs2_1f hs2_1t
      exact ⟨hco.1, ⟨env.gzipBytes fd0.content, env.now⟩, hco.2, hnowfresh⟩
    · have h2 : 2 ≤ n := by omega
      have hnk : n ≤ cfg.maxRotations := by omega
      have hpre : hasGenB st.dir (n - 1) = true :=
        (hgens (n - 1) (by omega)).mpr ⟨by omega, by omega⟩
      rcases hone (n - 1) (by omega) with hpl | hgz2
      · -- the predecessor generation is compressed: slot n is skipped
        have hgs : ∃ p, lookupF st.dir (.gen (n - 1) true) = some p := by
          unfold hasGenB at hpre
          rw [hpl] at hpre
          simp at hpre
          exact Option.isSome_iff_exists.mp hpre
        obtain ⟨p, hp⟩ := hgs
        have hplain2 : lookupF st2.dir (.gen n false) = none := by
          rw [hs2_mid n false h2 hnk]
          exact hpl
        have hgz3 : lookupF st2.dir (.gen n true) = some p := by
          rw [hs2_mid n true h2 hnk]
          exact hp
        have hnel : eligibleB st2.dir n = false := by
          unfold eligibleB
          rw [hplain2]
          simp
        refine ⟨?_, p, ?_, hfresh' (n - 1) true p (by omega) hp⟩
        · rw [hst3]
          rw [show compressRotatedLogs false env cfg.maxRotations st2
              = compressFrom false env 1 cfg.maxRotations st2 from rfl]
          rw [compressFrom_notEligible false env 1 cfg.maxRotations st2 hnel false]
          exact hplain2
        · rw [hst3]
          rw [show compressRotatedLogs false env cfg.maxRotations st2
              = compressFrom false env 1 cfg.maxRotations st2 from rfl]
          rw [compressFrom_notEligible false env 1 cfg.maxRotations st2 hnel true]
          exact hgz3
      · -- the predecessor generation is plain: slot n gets compressed now
        have hgs : ∃ p, lookupF st.dir (.gen (n - 1) false) = some p := by
          unfold hasGenB at hpre
          rw [hgz2] at hpre
          simp at hpre
          exact Option.isSome_iff_exists.mp hpre
        obtain ⟨p, hp⟩ := hgs
        have hplain2 : lookupF st2.dir (.gen n false) = some p := by
          rw [hs2_mid n false h2 hnk]
          exact hp
        have hgz3 : lookupF st2.dir (.gen n true) = none := by
          rw [hs2_mid n true h2 hnk]
          exact hgz2
        have hco := compressFrom_eligible_ok env 1 cfg.maxRotations st2 (by omega : 1 ≤ n)
          (by omega) (hok n) hplain2 hgz3
        exact ⟨hco.1, ⟨env.gzipBytes p.content, env.now⟩, hco.2, hnowfresh⟩
  have hdir3none : ∀ n g, n ≤ cfg.maxRotations → ¬(1 ≤ n ∧ n ≤ m + 1) →
      lookupF st3.dir (.gen n g) = none := by
    intro n g hn hr
    by_cases hn0 : n = 0
    · subst hn0
      have hst0 : ∀ g2 : Bool, lookupF st2.dir (.gen 0 g2) = none := by
        intro g2
        rw [hs2_0 g2]
        have := hgenfalse 0 (by omega) (by omega)
        cases g2
        · exact this.1
        · exact this.2
      rw [hst3]
      rw [show compressRotatedLogs false env cfg.maxRotations st2
          = compressFrom false env 1 cfg.maxRotations st2 from rfl]
      rw [compressFrom_frame false env 1 cfg.maxRotations st2 (by
        intro j g' hj1 hj2 hne
        rw [FName.gen.injEq] at hne
        omega)]
      exact hst0 g
    · have h2 : 2 ≤ n := by omega
      have hpre := hgenfalse (n - 1) (by omega) (by omega)
      have hplain2 : lookupF st2.dir (.gen n false) = none := by
        rw [hs2_mid n false h2 hn]
        exact hpre.1
      have hgz3 : lookupF st2.dir (.gen n true) = none := by
        rw [hs2_mid n true h2 hn]
        exact hpre.2
      have hnel : eligibleB st2.dir n = false := by
        unfold eligibleB
        rw [hplain2]
        simp
      rw [hst3]
      rw [show compressRotatedLogs false env cfg.maxRotations st2
          = compressFrom false env 1 cfg.maxRotations st2 from rfl]
      rw [compressFrom_notEligible false env 1 cfg.maxRotations st2 hnel g]
      cases g
      · exact hplain2
      · exact hgz3
  have hwf1 : wfDirB d1 = true := by
    rw [hd1]
    exact wf_shiftAux false (cfg.maxRotations - 1) hwf
  have hwf2 : wfDirB st2.dir = true := by
    rw [hst2]
    exact wf_rotateCurrent false env.now hwf1
  have hwf3 : wfDirB st3.dir = true := by
    rw [hst3]
    exact wf_compressFrom false env 1 cfg.maxRotations hwf2
  -- After the retention sweep.
  unfold cleanupOldRotations
  have hAfterPlain : ∀ n,
      lookupF (cleanupAux false env cfg st3.dir st3.stats).dir (.gen n false) = none := by
    intro n
    by_cases hnk : n ≤ cfg.maxRotations
    · by_cases hr : 1 ≤ n ∧ n ≤ m + 1
      · exact cleanupAux_lookup_none false env cfg _ (hdir3 n hr.1 hr.2).1
      · exact cleanupAux_lookup_none false env cfg _ (hdir3none n false hnk hr)
    · cases hx : lookupF st3.dir (.gen n false) with
      | none => exact cleanupAux_lookup_none false env cfg _ hx
      | some fdx =>
          rw [cleanupAux_lookup_some env cfg _ hwf3 (fun h => FName.noConfusion h) hx]
          have hmany : tooManyB env cfg (.gen n false) = true := by
            simp only [tooManyB, genNumOf]
            exact decide_eq_true (by omega)
          have hcond : cleanupEntryCond env cfg ⟨.gen n false, fdx⟩ = true := by
            unfold cleanupEntryCond
            rw [show (⟨FName.gen n false, fdx⟩ : Entry).name = .gen n false from rfl, hmany]
            simp
          rw [hcond]
          simp
  have hAfterGzIn : ∀ n, 1 ≤ n → n ≤ m + 1 →
      ∃ fd, lookupF (cleanupAux false env cfg st3.dir st3.stats).dir (.gen n true)
        = some fd := by
    intro n h1 hn
    obtain ⟨-, fd, hfd, hfr⟩ := hdir3 n h1 hn
    refine ⟨fd, ?_⟩
    rw [cleanupAux_lookup_some env cfg _ hwf3 (fun h => FName.noConfusion h) hfd]
    have hold : tooOldB env cfg fd = false := by
      simp only [tooOldB]
      rw [decide_eq_false_iff_not]
      omega
    have hmany : tooManyB env cfg (.gen n true) = false := by
      simp only [tooManyB, genNumOf]
      rw [decide_eq_false_iff_not]
      omega
    have hcond : cleanupEntryCond env cfg ⟨.gen n true, fd⟩ = false := by
      unfold cleanupEntryCond
      rw [show (⟨FName.gen n true, fd⟩ : Entry).name = .gen n true from rfl,
        show (⟨FName.gen n true, fd⟩ : Entry).data = fd from rfl, hold, hmany]
      rfl
    rw [hcond]
    simp
  have hAfterGzOut : ∀ n, ¬(1 ≤ n ∧ n ≤ m + 1) →
      lookupF (cleanupAux false env cfg st3.dir st3.stats).dir (.gen n true) = none := by
    intro n hr
    by_cases hnk : n ≤ cfg.maxRotations
    · exact cleanupAux_lookup_none false env cfg _ (hdir3none n true hnk hr)
    · cases hx : lookupF st3.dir (.gen n true) with
      | none => exact cleanupAux_lookup_none false env cfg _ hx
      | some fdx =>
          rw [cleanupAux_lookup_some env cfg _ hwf3 (fun h => FName.noConfusion h) hx]
          have hmany : tooManyB env cfg (.gen n true) = true := by
            simp only [tooManyB, genNumOf]
            exact decide_eq_true (by omega)
          have hcond : cleanupEntryCond env cfg ⟨.gen n true, fdx⟩ = true := by
            unfold cleanupEntryCond
            rw [show (⟨FName.gen n true, fdx⟩ : Entry).name = .gen n true from rfl, hmany]
            simp
          rw [hcond]
          simp
  constructor
  · intro n
    constructor
    · intro h
      by_cases hr : 1 ≤ n ∧ n ≤ m + 1
      · exact hr
      · exfalso
        unfold hasGenB at h
        rw [hAfterPlain n, hAfterGzOut n hr] at h
        simp at h
    · intro hr
      obtain ⟨fd, hfd⟩ := hAfterGzIn n hr.1 hr.2
      unfold hasGenB
      rw [hAfterPlain n, hfd]
      simp
  · intro n
    exact Or.inl (hAfterPlain n)


/-- C1 amended, witness at a concrete input (one pre-existing compressed
generation, `maxGenerations = 3`, so generations end exactly `1..2`). -/
theorem c1_amended_contiguity_witness :
    (∀ n, hasGenB (processLogFile false ⟨1000, id, fun _ => .ok, "app.log"⟩ ⟨30, 3, true, 0⟩
        ⟨[⟨.base, ⟨[1, 2], 1000⟩⟩, ⟨.gen 1 true, ⟨[9], 1000⟩⟩], Stats.init⟩).dir n = true
      ↔ (1 ≤ n ∧ n ≤ 1 + 1)) ∧
    (∀ n, lookupF (processLogFile false ⟨1000, id, fun _ => .ok, "app.log"⟩ ⟨30, 3, true, 0⟩
        ⟨[⟨.base, ⟨[1, 2], 1000⟩⟩, ⟨.gen 1 true, ⟨[9], 1000⟩⟩], Stats.init⟩).dir
        (.gen n false) = none ∨
      lookupF (processLogFile false ⟨1000, id, fun _ => .ok, "app.log"⟩ ⟨30, 3, true, 0⟩
        ⟨[⟨.base, ⟨[1, 2], 1000⟩⟩, ⟨.gen 1 true, ⟨[9], 1000⟩⟩], Stats.init⟩).dir
        (.gen n true) = none) :=
  c1_amended_contiguity ⟨1000, id, fun _ => .ok, "app.log"⟩ ⟨30, 3, true, 0⟩
    ⟨[⟨.base, ⟨[1, 2], 1000⟩⟩, ⟨.gen 1 true, ⟨[9], 1000⟩⟩], Stats.init⟩ 1
    (by decide) (by decide) (by decide) (fun _ => rfl)
    (by decide) (by decide) (by decide) (by decide)

end RotateLogs
